import Mathlib

/-
Verification of the media resolution and extraction pipeline in
`scripts/setup.py` (prawo-jazdy-pytania).

The Python code is shallowly embedded: cell values are modelled by `PyVal`
(None / str / int, the values openpyxl can deliver for the cells this script
touches), the filesystem by a partial map from path strings to entries, the
zip archive by its member list together with a (possibly failing) content
reader, and the external Docker transcoder by an opaque effect on the
filesystem plus an exit code.  Exceptions are modelled by `Except` /
`Option` results; a Python `try/finally` becomes an explicit match on the
body's outcome with the cleanup applied on every branch.
-/

/-! ## Python string primitives -/

/-- Whitespace characters removed by Python's `str.strip()` (the ASCII ones,
which are the only ones that can occur in this data). -/
def isPySpace (c : Char) : Bool :=
  c = ' ' || c = '\t' || c = '\n' || c = '\r' || c = '\x0b' || c = '\x0c'

/-- Python `str.strip()` on a character list: drop whitespace from both ends. -/
def pyStripList (cs : List Char) : List Char :=
  ((cs.dropWhile isPySpace).reverse.dropWhile isPySpace).reverse

/-- Python `str.strip()`. -/
def pyStrip (s : String) : String :=
  ⟨pyStripList s.data⟩

/-- Python `str.lower()` (character-wise). -/
def pyLower (s : String) : String :=
  ⟨s.data.map Char.toLower⟩

/-- Python `str.endswith(suffix)`. -/
def pyEndsWith (s suffix : String) : Bool :=
  suffix.data.isSuffixOf s.data

/-- Python `s.split(",")` at the character level: split into groups at
every comma (an empty string yields one empty group, as in Python). -/
def splitCommasList : List Char → List (List Char)
  | [] => [[]]
  | c :: rest =>
    if c = ',' then [] :: splitCommasList rest
    else
      match splitCommasList rest with
      | [] => [[c]]
      | g :: gs => (c :: g) :: gs

/-- Python `s.split(",")`. -/
def pySplitCommas (s : String) : List String :=
  (splitCommasList s.data).map String.mk

/-- Helper for `os.path.splitext`: scanning a reversed character list, is
there some non-dot character before any path separator?  (CPython only
treats the last dot as an extension separator if a non-dot character
precedes it within the final path component.) -/
def hasNonDotBeforeSlash : List Char → Bool
  | [] => false
  | c :: rest => if c = '/' then false else if c = '.' then hasNonDotBeforeSlash rest else true

/-- Helper for `os.path.splitext`: given the reversed character list of a
path, the length of the extension (final dot included), if there is one. -/
def extLenRevAux (k : Nat) : List Char → Option Nat
  | [] => Option.none
  | c :: rest =>
    if c = '/' then Option.none
    else if c = '.' then
      (if hasNonDotBeforeSlash rest then some (k + 1) else Option.none)
    else extLenRevAux (k + 1) rest

/-- Python `os.path.splitext` (posix, `sep = '/'`): split off the extension
starting at the last dot, unless that dot only has dots before it in the
final path component (leading dots are not extension separators). -/
def pySplitext (p : String) : String × String :=
  match extLenRevAux 0 p.data.reverse with
  | Option.none => (p, "")
  | some n => (⟨p.data.take (p.data.length - n)⟩, ⟨p.data.drop (p.data.length - n)⟩)

/-- Python `os.path.basename`: the part after the last `'/'`. -/
def pyBasename (p : String) : String :=
  ⟨(p.data.reverse.takeWhile (fun c => c ≠ '/')).reverse⟩

/-- Python `os.path.join(d, f)` for the uses in this script: `d` is a
non-empty directory path not ending in a separator and `f` a relative
filename. -/
def pyJoin (d f : String) : String :=
  d ++ "/" ++ f

/-- Digits to the natural number they denote (base 10). -/
def digitsToNat (l : List Char) : Nat :=
  l.foldl (fun acc c => acc * 10 + (c.toNat - 48)) 0

/-- Python `int(s)` on a string: strip whitespace, allow one sign, then
require a non-empty run of digits; anything else raises `ValueError`
(modelled as `Option.none`). -/
def pyIntOfString (v : String) : Option Int :=
  match pyStripList v.data with
  | '-' :: ds =>
    if !ds.isEmpty && ds.all Char.isDigit then some (-(digitsToNat ds : Int)) else Option.none
  | '+' :: ds =>
    if !ds.isEmpty && ds.all Char.isDigit then some ((digitsToNat ds : Int)) else Option.none
  | ds =>
    if !ds.isEmpty && ds.all Char.isDigit then some ((digitsToNat ds : Int)) else Option.none

/-! ## Python values (spreadsheet cells) -/

/-- A value as openpyxl delivers it for the cells this script reads:
`None`, a string, or an integer. -/
inductive PyVal where
  | none
  | s (v : String)
  | i (v : Int)
deriving DecidableEq, Repr

/-- Python truthiness of a cell value (`if not text: ...`). -/
def PyVal.truthy : PyVal → Bool
  | PyVal.none => false
  | PyVal.s v => !(v = "")
  | PyVal.i n => !(n = 0)

/-- Python `str(v)`. -/
def PyVal.pyStr : PyVal → String
  | PyVal.none => "None"
  | PyVal.s v => v
  | PyVal.i n => toString n

/-- Python `int(v)` for the values that occur here; `Option.none` models a
raised exception (`ValueError` on a non-numeric string, `TypeError` on
`None`). -/
def pyInt : PyVal → Option Int
  | PyVal.i n => some n
  | PyVal.s v => pyIntOfString v
  | PyVal.none => Option.none

/-! ## Data model: rows and Question records -/

/-- One raw spreadsheet data row: the ten positional cells `row[0] .. row[9]`
read in `parse_xlsx`. -/
structure Row where
  lp : PyVal
  number : PyVal
  text : PyVal
  ansA : PyVal
  ansB : PyVal
  ansC : PyVal
  correct : PyVal
  mediaName : PyVal
  struct : PyVal
  categories : PyVal
deriving DecidableEq, Repr

/-- Question type: `"TN"` (true/false) or `"ABC"` (multiple choice). -/
inductive QType where
  | TN
  | ABC
deriving DecidableEq, Repr

/-- The canonical question record appended to `questions` by `parse_xlsx`.
`answers` keeps the insertion order A, B, C of the Python dict; `id` is
whatever Python value ends up in the dict (`int(number)` or the fallback
`lp`). -/
structure Question where
  id : PyVal
  text : String
  type : QType
  answers : Option (List (String × String))
  correct : String
  media : Option String
  mediaOrig : Option String
  struct : String
deriving DecidableEq, Repr

/-- Outcome of processing one data row: a record is appended, the row is
skipped (counted), or an exception escapes. -/
inductive RowOutcome where
  | emitted (q : Question)
  | skipped
  | error
deriving DecidableEq, Repr

/-! ## Record Normalizer (the per-row body of `parse_xlsx`) -/

/-- The category filter test: with `CATEGORY_FILTER` falsy the block is
skipped (row passes); otherwise the row's category cell is stringified,
split on commas, each entry stripped, and the filter must be a member. -/
def catsOk (cf : Option String) (categories : PyVal) : Bool :=
  match cf with
  | Option.none => true
  | some f =>
    if f = "" then true
    else ((pySplitCommas categories.pyStr).map pyStrip).contains f

/-- The check `if not text or not correct: skip` and the category filter, combined:
does the row survive both skip checks? -/
def rowAccepted (cf : Option String) (r : Row) : Bool :=
  r.text.truthy && r.correct.truthy && catsOk cf r.categories

/-- Question type and answers dict: token `"T"`/`"N"` gives `"TN"` with no
answers; anything else gives `"ABC"` with one entry per truthy choice cell,
each value stringified and stripped. -/
def rowTypeAnswers (r : Row) : QType × Option (List (String × String)) :=
  if r.correct = PyVal.s "T" ∨ r.correct = PyVal.s "N" then (QType.TN, Option.none)
  else
    (QType.ABC, some
      ((if r.ansA.truthy then [("A", pyStrip r.ansA.pyStr)] else []) ++
       (if r.ansB.truthy then [("B", pyStrip r.ansB.pyStr)] else []) ++
       (if r.ansC.truthy then [("C", pyStrip r.ansC.pyStr)] else [])))

/-- Media normalisation: if the media cell is truthy it is stringified and
stripped into `media_name`; `media` rewrites a (case-insensitive) `.wmv`
extension to `.webm` and otherwise keeps the name; `mediaOrig` is
`str(media_name).strip() if media_name else None` evaluated after that
reassignment.  Returns `(media, mediaOrig)`. -/
def rowMedia (r : Row) : Option String × Option String :=
  if r.mediaName.truthy then
    (some (if pyEndsWith (pyLower (pyStrip r.mediaName.pyStr)) ".wmv" then
             (pySplitext (pyStrip r.mediaName.pyStr)).1 ++ ".webm"
           else pyStrip r.mediaName.pyStr),
     if pyStrip r.mediaName.pyStr = "" then Option.none
     else some (pyStrip (pyStrip r.mediaName.pyStr)))
  else (Option.none, Option.none)

/-- The id computation `int(number) if number else lp`; `Option.none` models the `ValueError`
raised by `int` on a non-numeric cell. -/
def rowId (r : Row) : Option PyVal :=
  if r.number.truthy then (pyInt r.number).map PyVal.i else some r.lp

/-- The record appended for an accepted row whose id computation succeeded. -/
def mkQuestion (r : Row) (iv : PyVal) : Question :=
  { id := iv
    text := pyStrip r.text.pyStr
    type := (rowTypeAnswers r).1
    answers := (rowTypeAnswers r).2
    correct := pyStrip r.correct.pyStr
    media := (rowMedia r).1
    mediaOrig := (rowMedia r).2
    struct := if r.struct.truthy then pyStrip r.struct.pyStr else "PODSTAWOWY" }

/-- Process one data row of the spreadsheet exactly as the loop body of
`parse_xlsx` does: skip rows failing the prompt/correctness check or the
category filter, otherwise build the record; computing the id can raise. -/
def normalizeRow (cf : Option String) (r : Row) : RowOutcome :=
  if rowAccepted cf r then
    match rowId r with
    | some iv => RowOutcome.emitted (mkQuestion r iv)
    | Option.none => RowOutcome.error
  else RowOutcome.skipped

/-- The whole row loop of `parse_xlsx` over the data rows (header already
dropped): accumulate emitted records and the skip count; a raised exception
aborts the run. -/
def parseRows (cf : Option String) : List Row → List Question × Nat → Except Unit (List Question × Nat)
  | [], acc => Except.ok acc
  | r :: rs, acc =>
    match normalizeRow cf r with
    | RowOutcome.emitted q => parseRows cf rs (acc.1 ++ [q], acc.2)
    | RowOutcome.skipped => parseRows cf rs (acc.1, acc.2 + 1)
    | RowOutcome.error => Except.error ()

/-! ## Filesystem and archive model -/

/-- A filesystem entry: a directory or a file with its full byte content. -/
inductive Entry where
  | dir
  | file (content : List Nat)
deriving DecidableEq, Repr

/-- The filesystem: a partial map from absolute path to entry. -/
def FS : Type := String → Option Entry

/-- Python `open(dst, "wb"); out.write(bytes)`: (re)create the file at `p` with the
full content `c`. -/
def fsWrite (fs : FS) (p : String) (c : List Nat) : FS :=
  fun q => if q = p then some (Entry.file c) else fs q

/-- Python `os.makedirs(d, exist_ok=True)` / `tempfile.mkdtemp`: ensure a directory
entry at `d`. -/
def fsMkdir (d : String) (fs : FS) : FS :=
  fun p => if p = d then some ((fs d).getD Entry.dir) else fs p

/-- Is `p` the directory `d` itself or a path strictly inside it? -/
def underDir (d p : String) : Bool :=
  p = d || (d ++ "/").data.isPrefixOf p.data

/-- Python `shutil.rmtree(d, ignore_errors=True)`: remove `d` and everything under
it. -/
def rmtree (d : String) (fs : FS) : FS :=
  fun p => if underDir d p then Option.none else fs p

/-- The zip archive: whether it opens as a valid archive, its member list
(`zf.namelist()`), and a content reader for members (`zf.open(m).read()`);
`Option.none` models an exception raised while reading. -/
structure Archive where
  ok : Bool
  members : List String
  read : String → Option (List Nat)

/-- The `name_map` construction: one pass over `zf.namelist()`, assigning
`name_map[basename(member).lower()] = member` — a later assignment to the
same key overwrites an earlier one. -/
def buildNameMap (members : List String) : String → Option String :=
  members.foldl
    (fun acc member => fun k => if k = pyLower (pyBasename member) then some member else acc k)
    (fun _ => Option.none)

/-! ## Asset Need Calculator -/

/-- Python `set.add`: insert without duplicating. -/
def setInsert (x : String) (l : List String) : List String :=
  if x ∈ l then l else x :: l

/-- Build `needed_images` and `needed_videos` from the question list: each
record's `mediaOrig`, when truthy, goes to the video set if it ends
(case-insensitively) in `.wmv`, and to the image set otherwise. -/
def neededSets : List Question → List String × List String
  | [] => ([], [])
  | q :: qs =>
    match q.mediaOrig with
    | Option.none => neededSets qs
    | some orig =>
      if orig = "" then neededSets qs
      else if pyEndsWith (pyLower orig) ".wmv" then
        ((neededSets qs).1, setInsert orig (neededSets qs).2)
      else (setInsert orig (neededSets qs).1, (neededSets qs).2)

/-- The expected converted filename: `os.path.splitext(wmv)[0] + ".webm"`. -/
def webmOf (w : String) : String :=
  (pySplitext w).1 ++ ".webm"

/-- Partition `needed_videos`: a video whose converted output already exists
in the media directory is counted in `videos_skip`; the rest form
`videos_to_convert`.  (The iteration order of the Python set does not affect
membership or the count.) -/
def videosPartition (fs : FS) (mediaDir : String) : List String → List String × Nat
  | [] => ([], 0)
  | w :: ws =>
    let rest := videosPartition fs mediaDir ws
    if (fs (pyJoin mediaDir (webmOf w))).isSome then (rest.1, rest.2 + 1)
    else (w :: rest.1, rest.2)

/-! ## Extraction Engine -/

/-- Exceptions that can escape the `try` block: the zip failing to open as a
valid archive, or a member read failing. -/
inductive Exc where
  | badZip
  | readError (member : String)
deriving DecidableEq, Repr

/-- State threaded through the extraction passes: the filesystem, the
counters of `extract_and_convert`, and a log of archive reads, each
attributed to the asset whose loop iteration performed it. -/
structure ExSt where
  fs : FS
  imagesDone : Nat
  imagesSkip : Nat
  wmvExtracted : Nat
  notFound : Nat
  reads : List (String × String)

/-- Initial extraction state over a filesystem. -/
def initSt (fs : FS) : ExSt :=
  { fs := fs, imagesDone := 0, imagesSkip := 0, wmvExtracted := 0, notFound := 0, reads := [] }

/-- The state of either outcome (used to speak about the filesystem on
exception paths as well). -/
def stOf : Except (Exc × ExSt) ExSt → ExSt
  | Except.ok st => st
  | Except.error (_, st) => st

/-- One iteration of the image loop: skip if the target exists, count
not-found if the index lacks the basename, otherwise read the member and
write its full content to the target.  The source enters both context
managers before the body runs, so `open(dst, "wb")` creates/truncates the
destination before `src.read()`: a read that raises therefore propagates
with an empty file left at the destination. -/
def imageStep (ar : Archive) (nameMap : String → Option String) (mediaDir : String)
    (st : ExSt) (img : String) : Except (Exc × ExSt) ExSt :=
  let dst := pyJoin mediaDir img
  if (st.fs dst).isSome then Except.ok { st with imagesSkip := st.imagesSkip + 1 }
  else
    match nameMap (pyLower img) with
    | Option.none => Except.ok { st with notFound := st.notFound + 1 }
    | some zipped =>
      match ar.read zipped with
      | Option.none =>
        Except.error (Exc.readError zipped, { st with fs := fsWrite st.fs dst [] })
      | some c =>
        Except.ok { st with
          fs := fsWrite st.fs dst c
          imagesDone := st.imagesDone + 1
          reads := st.reads ++ [(img, zipped)] }

/-- One iteration of the WMV loop: count not-found if the index lacks the
basename, otherwise read the member and write its full content into the
scratch directory.  As in the image loop, `open(dst, "wb")` truncates the
scratch destination before `src.read()`, so a failing read raises with an
empty file left behind. -/
def wmvStep (ar : Archive) (nameMap : String → Option String) (scratchDir : String)
    (st : ExSt) (wmv : String) : Except (Exc × ExSt) ExSt :=
  match nameMap (pyLower wmv) with
  | Option.none => Except.ok { st with notFound := st.notFound + 1 }
  | some zipped =>
    match ar.read zipped with
    | Option.none =>
      Except.error (Exc.readError zipped,
        { st with fs := fsWrite st.fs (pyJoin scratchDir wmv) [] })
    | some c =>
      Except.ok { st with
        fs := fsWrite st.fs (pyJoin scratchDir wmv) c
        wmvExtracted := st.wmvExtracted + 1
        reads := st.reads ++ [(wmv, zipped)] }

/-- Run loop iterations in sequence; a raised exception propagates,
carrying the state at the raise point. -/
def runSteps (step : ExSt → String → Except (Exc × ExSt) ExSt) :
    List String → ExSt → Except (Exc × ExSt) ExSt
  | [], st => Except.ok st
  | x :: xs, st =>
    match step st x with
    | Except.ok st' => runSteps step xs st'
    | Except.error e => Except.error e

/-- Both extraction passes, sharing one open archive handle and one state:
the image loop over `needed_images`, then the WMV loop over
`videos_to_convert`. -/
def extractPasses (ar : Archive) (nameMap : String → Option String)
    (mediaDir scratchDir : String) (imgs vtc : List String) (st : ExSt) :
    Except (Exc × ExSt) ExSt :=
  match runSteps (imageStep ar nameMap mediaDir) imgs st with
  | Except.error e => Except.error e
  | Except.ok st1 => runSteps (wmvStep ar nameMap scratchDir) vtc st1

/-! ## Conversion Orchestrator -/

/-- The external environment of step 5: Docker availability, the image
build outcome, and the batch `docker run` modelled as an opaque effect on
the filesystem together with its exit code. -/
structure ConvEnv where
  dockerAvailable : Bool
  buildOk : Bool
  runReturncode : Int
  runEffect : FS → FS

/-- The reported outcome of step 5, one constructor per exit path of the
code. -/
inductive Phase5 where
  | allExisted (n : Nat)
  | noVideos
  | noDocker
  | buildFailed
  | dockerError (code : Int)
  | converted (ok : Nat) (extracted : Nat) (already : Nat)
deriving DecidableEq, Repr

/-- Step 5 as the code performs it: early return when nothing is slated,
when Docker is unavailable, or when the image build fails; otherwise run the
batch container (its effect lands on the filesystem whatever its exit code),
report an error on a non-zero exit, and on a zero exit count, per slated
video, whether the expected converted output now exists. -/
def conversionPhase (env : ConvEnv) (mediaDir : String) (vtc : List String)
    (videosSkip wmvExtracted : Nat) (fs : FS) : Phase5 × FS :=
  if vtc.isEmpty then
    (if videosSkip ≠ 0 then Phase5.allExisted videosSkip else Phase5.noVideos, fs)
  else if !env.dockerAvailable then (Phase5.noDocker, fs)
  else if !env.buildOk then (Phase5.buildFailed, fs)
  else
    let fs' := env.runEffect fs
    if env.runReturncode ≠ 0 then (Phase5.dockerError env.runReturncode, fs')
    else
      (Phase5.converted
        (vtc.countP (fun w => (fs' (pyJoin mediaDir (webmOf w))).isSome))
        wmvExtracted videosSkip, fs')

/-- Run-level report of `extract_and_convert`. -/
structure Report where
  imagesDone : Nat
  imagesSkip : Nat
  wmvExtracted : Nat
  notFound : Nat
  videosSkip : Nat
  reads : List (String × String)
  phase5 : Phase5

/-- The body of the `try` block: open the zip (raising if it is not a valid
archive), build the basename index, run both extraction passes, then run the
conversion phase.  Errors carry the filesystem at the raise point. -/
def extractBody (ar : Archive) (env : ConvEnv) (mediaDir scratchDir : String)
    (imgs vtc : List String) (videosSkip : Nat) (fs : FS) :
    Except (Exc × FS) (Report × FS) :=
  if !ar.ok then Except.error (Exc.badZip, fs)
  else
    match extractPasses ar (buildNameMap ar.members) mediaDir scratchDir imgs vtc (initSt fs) with
    | Except.error (e, st) => Except.error (e, st.fs)
    | Except.ok st =>
      let out := conversionPhase env mediaDir vtc videosSkip st.wmvExtracted st.fs
      Except.ok
        ({ imagesDone := st.imagesDone, imagesSkip := st.imagesSkip
           wmvExtracted := st.wmvExtracted, notFound := st.notFound
           videosSkip := videosSkip, reads := st.reads, phase5 := out.1 }, out.2)

/-- The function `extract_and_convert`: build the need sets, decide which videos still
need conversion (against the pre-run filesystem), ensure the media
directory, create the scratch directory, then run the body under
`try/finally` — on every exit path, normal or exceptional, the scratch
directory is removed before the function completes. -/
def extract_and_convert (ar : Archive) (env : ConvEnv) (mediaDir scratchDir : String)
    (questions : List Question) (fs0 : FS) : Except Exc Report × FS :=
  match extractBody ar env mediaDir scratchDir (neededSets questions).1
      (videosPartition (fsMkdir mediaDir fs0) mediaDir (neededSets questions).2).1
      (videosPartition (fsMkdir mediaDir fs0) mediaDir (neededSets questions).2).2
      (fsMkdir scratchDir (fsMkdir mediaDir fs0)) with
  | Except.error (e, fs2) => (Except.error e, rmtree scratchDir fs2)
  | Except.ok (r, fs2) => (Except.ok r, rmtree scratchDir fs2)

/-! ## Helper lemmas -/

/-- Folding the `name_map` updates over any base lookup: the result at `k`
is the last matching member if there is one, and the base otherwise. -/
theorem buildNameMap_foldl (k : String) (l : List String) :
    ∀ f : String → Option String,
      l.foldl (fun acc member => fun k' =>
          if k' = pyLower (pyBasename member) then some member else acc k') f k
        = (l.reverse.find? (fun mem => pyLower (pyBasename mem) = k)).or (f k) := by
  induction l with
  | nil => intro f; simp
  | cons m t ih =>
    intro f
    rw [List.foldl_cons, ih, List.reverse_cons, List.find?_append, Option.or_assoc]
    congr 1
    by_cases h : pyLower (pyBasename m) = k
    · simp [List.find?, h]
    · have h2 : ¬k = pyLower (pyBasename m) := fun hk => h hk.symm
      simp [List.find?, h, h2]

/-- The `name_map` lookup equals the reverse-order first match. -/
theorem buildNameMap_eq (members : List String) (k : String) :
    buildNameMap members k
      = members.reverse.find? (fun mem => pyLower (pyBasename mem) = k) := by
  rw [buildNameMap, buildNameMap_foldl k members (fun _ => Option.none), Option.or_none]

/-- Unfolding: `pyStripList` is `dropWhile` from the front then from the back. -/
theorem pyStripList_eq_rdropWhile (cs : List Char) :
    pyStripList cs = (cs.dropWhile isPySpace).rdropWhile isPySpace := rfl

/-- Python `str.strip()` is idempotent (list level). -/
theorem pyStripList_idem (cs : List Char) : pyStripList (pyStripList cs) = pyStripList cs := by
  rw [pyStripList_eq_rdropWhile, pyStripList_eq_rdropWhile]
  have hX : ((cs.dropWhile isPySpace).rdropWhile isPySpace).dropWhile isPySpace
      = (cs.dropWhile isPySpace).rdropWhile isPySpace := by
    rw [List.dropWhile_eq_self_iff]
    intro hl
    have hpre := List.rdropWhile_prefix isPySpace (cs.dropWhile isPySpace)
    have hn : 0 < (cs.dropWhile isPySpace).length :=
      Nat.lt_of_lt_of_le hl hpre.length_le
    have hget := hpre.getElem hl
    simp only [List.get_eq_getElem, hget]
    exact List.dropWhile_get_zero_not isPySpace cs hn
  rw [hX, List.rdropWhile_idempotent]

/-- Stripping with `pyStrip` is idempotent. -/
theorem pyStrip_idem (s : String) : pyStrip (pyStrip s) = pyStrip s := by
  unfold pyStrip
  exact congrArg String.mk (pyStripList_idem s.data)

/-- Recombination: `os.path.splitext` splits a path into stem and extension. -/
theorem pySplitext_append (p : String) : (pySplitext p).1 ++ (pySplitext p).2 = p := by
  unfold pySplitext
  cases h : extLenRevAux 0 p.data.reverse with
  | none => simp
  | some n =>
    show String.mk (p.data.take (p.data.length - n) ++ p.data.drop (p.data.length - n)) = p
    rw [List.take_append_drop]

/-- A successful extension scan starting at offset `k` yields a length past
`k`, bounded by the list, whose dropped remainder passes the non-dot
check. -/
theorem extLenRevAux_spec (l : List Char) :
    ∀ k n, extLenRevAux k l = some n →
      k + 1 ≤ n ∧ n - k ≤ l.length ∧ hasNonDotBeforeSlash (l.drop (n - k)) = true := by
  induction l with
  | nil => intro k n h; simp [extLenRevAux] at h
  | cons c rest ih =>
    intro k n h
    simp only [extLenRevAux] at h
    by_cases h1 : c = '/'
    · rw [if_pos h1] at h; cases h
    · rw [if_neg h1] at h
      by_cases h2 : c = '.'
      · rw [if_pos h2] at h
        by_cases h3 : hasNonDotBeforeSlash rest = true
        · rw [if_pos h3] at h
          injection h with h
          subst h
          refine ⟨Nat.le_refl _, by simp, ?_⟩
          have hnk : k + 1 - k = 1 := by omega
          rw [hnk, List.drop_succ_cons, List.drop_zero]
          exact h3
        · rw [if_neg h3] at h; cases h
      · rw [if_neg h2] at h
        obtain ⟨hk, hlen, hnd⟩ := ih (k + 1) n h
        refine ⟨by omega, by simp; omega, ?_⟩
        have hnk : n - k = (n - (k + 1)) + 1 := by omega
        rw [hnk, List.drop_succ_cons]
        exact hnd

/-- A path ending case-insensitively in `.wmv` ends in a character that is
neither a dot nor a separator. -/
theorem last_of_wmv {m : String} (h : pyEndsWith (pyLower m) ".wmv" = true) :
    ∃ c rest, m.data.reverse = c :: rest ∧ c ≠ '.' ∧ c ≠ '/' := by
  unfold pyEndsWith pyLower at h
  rw [List.isSuffixOf_iff_suffix] at h
  obtain ⟨pre, hpre⟩ := h
  have hd : (".wmv" : String).data = ['.', 'w', 'm', 'v'] := rfl
  rw [hd] at hpre
  have hrev : List.map Char.toLower m.data.reverse
      = 'v' :: 'm' :: 'w' :: '.' :: pre.reverse := by
    rw [List.map_reverse]
    have hdm : List.map Char.toLower m.data = pre ++ ['.', 'w', 'm', 'v'] := hpre.symm
    rw [hdm, List.reverse_append]
    rfl
  cases hmr : m.data.reverse with
  | nil => rw [hmr] at hrev; cases hrev
  | cons c rest =>
    rw [hmr, List.map_cons] at hrev
    injection hrev with hc hrest
    refine ⟨c, rest, rfl, ?_, ?_⟩
    · intro hcd
      rw [hcd] at hc
      cases hc
    · intro hcs
      rw [hcs] at hc
      cases hc

/-- Scanning `stem ++ ".webm"` reversed finds exactly the `.webm`
extension once the stem passes the non-dot check. -/
theorem extLenRevAux_webm (S : List Char) (hS : hasNonDotBeforeSlash S = true) :
    extLenRevAux 0 ('m' :: 'b' :: 'e' :: 'w' :: '.' :: S) = some 5 := by
  simp [extLenRevAux, hS]

/-- The value of `os.path.splitext` once the extension scan is known. -/
theorem pySplitext_of_extLen {p : String} {n : Nat}
    (h : extLenRevAux 0 p.data.reverse = some n) :
    pySplitext p
      = (⟨p.data.take (p.data.length - n)⟩, ⟨p.data.drop (p.data.length - n)⟩) := by
  unfold pySplitext
  rw [h]

/-- The stem produced by `os.path.splitext` on a name ending
case-insensitively in `.wmv` passes the non-dot check. -/
theorem stem_hasNonDot {m : String} (h : pyEndsWith (pyLower m) ".wmv" = true) :
    hasNonDotBeforeSlash (pySplitext m).1.data.reverse = true := by
  obtain ⟨c, rest, hrev, hcd, hcs⟩ := last_of_wmv h
  cases he : extLenRevAux 0 m.data.reverse with
  | none =>
    have hst : (pySplitext m).1 = m := by
      unfold pySplitext
      rw [he]
    rw [hst, hrev]
    unfold hasNonDotBeforeSlash
    rw [if_neg hcs, if_neg hcd]
  | some n =>
    obtain ⟨hk, hlen, hnd⟩ := extLenRevAux_spec _ 0 n he
    rw [Nat.sub_zero] at hlen hnd
    rw [List.length_reverse] at hlen
    have hst : (pySplitext m).1.data = m.data.take (m.data.length - n) := by
      rw [pySplitext_of_extLen he]
    rw [hst, List.reverse_take]
    have hsub : m.data.length - (m.data.length - n) = n := by omega
    rw [hsub]
    exact hnd

/-- Appending the `.webm` extension to a stem that passes the non-dot
check: `os.path.splitext` splits it back into that stem and `.webm`. -/
theorem pySplitext_append_webm (st : String)
    (hS : hasNonDotBeforeSlash st.data.reverse = true) :
    pySplitext (st ++ ".webm") = (st, ".webm") := by
  have hdata : (st ++ (".webm" : String)).data = st.data ++ ['.', 'w', 'e', 'b', 'm'] := rfl
  have hrev : (st ++ (".webm" : String)).data.reverse
      = 'm' :: 'b' :: 'e' :: 'w' :: '.' :: st.data.reverse := by
    rw [hdata, List.reverse_append]
    rfl
  have he : extLenRevAux 0 (st ++ (".webm" : String)).data.reverse = some 5 := by
    rw [hrev]
    exact extLenRevAux_webm _ hS
  rw [pySplitext_of_extLen he]
  have hlen : (st ++ (".webm" : String)).data.length - 5 = st.data.length := by
    rw [hdata, List.length_append]
    simp
  rw [hlen, hdata, List.take_left, List.drop_left]

/-- Replacing the extension of a name that ends case-insensitively in
`.wmv`: splitting the rewritten name gives back the same stem with the
`.webm` extension. -/
theorem pySplitext_stem_webm {m : String} (h : pyEndsWith (pyLower m) ".wmv" = true) :
    pySplitext ((pySplitext m).1 ++ ".webm") = ((pySplitext m).1, ".webm") :=
  pySplitext_append_webm _ (stem_hasNonDot h)

/-- An emitted record comes from an accepted row with a successfully
computed id, and is exactly the record `mkQuestion` builds. -/
theorem emitted_eq {cf : Option String} {r : Row} {q : Question}
    (h : normalizeRow cf r = RowOutcome.emitted q) :
    rowAccepted cf r = true ∧ ∃ iv, rowId r = some iv ∧ q = mkQuestion r iv := by
  unfold normalizeRow at h
  by_cases ha : rowAccepted cf r = true
  · rw [if_pos ha] at h
    cases hid : rowId r with
    | none => rw [hid] at h; cases h
    | some iv =>
      rw [hid] at h
      injection h with h
      exact ⟨ha, iv, rfl, h.symm⟩
  · rw [if_neg ha] at h
    cases h

/-- An accepted row has truthy prompt, truthy correctness token, and passes
the category filter. -/
theorem rowAccepted_spec {cf : Option String} {r : Row} (h : rowAccepted cf r = true) :
    r.text.truthy = true ∧ r.correct.truthy = true ∧ catsOk cf r.categories = true := by
  unfold rowAccepted at h
  simp only [Bool.and_eq_true] at h
  exact ⟨h.1.1, h.1.2, h.2⟩

/-- C1, counterexample: with two archive members sharing the lowercase
basename `clip.wmv`, the index retains the second (last) one, not the first
encountered, refuting the first-entry-wins claim. -/
theorem nameMap_first_wins_counterexample :
    buildNameMap ["dir1/Clip.wmv", "dir2/CLIP.WMV"] "clip.wmv" = some "dir2/CLIP.WMV" ∧
    buildNameMap ["dir1/Clip.wmv", "dir2/CLIP.WMV"] "clip.wmv" ≠ some "dir1/Clip.wmv" := by
  constructor
  · rfl
  · decide

/-- C1, amended: the basename index is a one-pass dictionary construction
in which the member path retained for a shared lowercase basename is the
last one encountered during the pass (last entry wins): the lookup equals
the first match over the reversed member list. -/
theorem nameMap_last_entry_wins (members : List String) (k : String) :
    buildNameMap members k
      = members.reverse.find? (fun mem => pyLower (pyBasename mem) = k) :=
  buildNameMap_eq members k

/-- C3, counterexample: a row whose prompt cell is the single space `" "`
is truthy in Python, passes the emptiness check, and is emitted with an
empty (stripped) `text`, refuting the non-empty-text invariant. -/
theorem normalizer_nonempty_text_counterexample :
    normalizeRow (some "B")
        ⟨PyVal.i 1, PyVal.i 7, PyVal.s " ", PyVal.none, PyVal.none, PyVal.none,
          PyVal.s "T", PyVal.none, PyVal.none, PyVal.s "A,B"⟩
      = RowOutcome.emitted
          { id := PyVal.i 7, text := "", type := QType.TN, answers := Option.none,
            correct := "T", media := Option.none, mediaOrig := Option.none,
            struct := "PODSTAWOWY" } := by
  decide

/-- C3, amended: every emitted record comes from a row whose prompt and
correctness cells are truthy (present and non-empty before stripping), and
its `text` and `correct` fields are exactly the stripped cell values — so
they are non-empty unless the cell consists only of whitespace. -/
theorem normalizer_text_correct_stripped (cf : Option String) (r : Row) (q : Question)
    (h : normalizeRow cf r = RowOutcome.emitted q) :
    r.text.truthy = true ∧ r.correct.truthy = true ∧
    q.text = pyStrip r.text.pyStr ∧ q.correct = pyStrip r.correct.pyStr := by
  obtain ⟨ha, iv, hid, hq⟩ := emitted_eq h
  obtain ⟨ht, hc, _⟩ := rowAccepted_spec ha
  subst hq
  exact ⟨ht, hc, rfl, rfl⟩

/-- C3, witness: the amended theorem applied to a concrete accepted row. -/
theorem normalizer_text_correct_stripped_witness :
    (PyVal.s "Pytanie").truthy = true ∧ (PyVal.s "T").truthy = true ∧
    "Pytanie" = pyStrip (PyVal.s "Pytanie").pyStr ∧ "T" = pyStrip (PyVal.s "T").pyStr :=
  normalizer_text_correct_stripped (some "B")
    ⟨PyVal.i 1, PyVal.i 7, PyVal.s "Pytanie", PyVal.none, PyVal.none, PyVal.none,
      PyVal.s "T", PyVal.none, PyVal.none, PyVal.s "A,B"⟩
    { id := PyVal.i 7, text := "Pytanie", type := QType.TN, answers := Option.none,
      correct := "T", media := Option.none, mediaOrig := Option.none,
      struct := "PODSTAWOWY" }
    (by decide)

/-- C4, counterexample: a row whose media cell is the single space `" "` is
truthy, so `media` is set — to the empty string after stripping — while
`mediaOrig` is `None` because the stripped name is falsy: `media` is
present exactly where `mediaOrig` is absent, refuting the if-and-only-if
claim. -/
theorem normalizer_media_iff_counterexample :
    normalizeRow (some "B")
        ⟨PyVal.i 1, PyVal.i 7, PyVal.s "q", PyVal.none, PyVal.none, PyVal.none,
          PyVal.s "T", PyVal.s " ", PyVal.none, PyVal.s "A,B"⟩
      = RowOutcome.emitted
          { id := PyVal.i 7, text := "q", type := QType.TN, answers := Option.none,
            correct := "T", media := some "", mediaOrig := Option.none,
            struct := "PODSTAWOWY" } ∧
    (some "").isSome = true ∧ (Option.none : Option String).isSome = false := by
  refine ⟨by decide, rfl, rfl⟩

/-- The two media fields produced for a row, characterised by the shape of
the media cell. -/
theorem rowMedia_spec (r : Row) :
    (¬(r.mediaName.truthy = true ∧ pyStrip r.mediaName.pyStr = "") →
        (((rowMedia r).1.isSome = true ↔ (rowMedia r).2.isSome = true) ∧
         ((rowMedia r).1 = Option.none ↔ r.mediaName.truthy = false))) ∧
    ((r.mediaName.truthy = true ∧ pyStrip r.mediaName.pyStr = "") →
        (rowMedia r).1 = some "" ∧ (rowMedia r).2 = Option.none) := by
  unfold rowMedia
  by_cases ht : r.mediaName.truthy = true
  · rw [if_pos ht]
    by_cases hm : pyStrip r.mediaName.pyStr = ""
    · constructor
      · intro hno
        exact absurd ⟨ht, hm⟩ hno
      · intro _
        rw [if_pos hm]
        refine ⟨?_, rfl⟩
        rw [hm]
        decide
    · rw [if_neg hm]
      refine ⟨fun _ => ⟨by simp, ?_⟩, fun hyes => absurd hyes.2 hm⟩
      simp [ht]
  · rw [if_neg ht]
    have ht' : r.mediaName.truthy = false := Bool.eq_false_iff.mpr ht
    exact ⟨fun _ => ⟨by simp, by simp [ht']⟩, fun hyes => absurd hyes.1 ht⟩

/-- C4, amended: for every emitted record, `media` is present iff
`mediaOrig` is present and `media` is absent exactly when the media cell is
falsy — except for a row whose media cell is truthy but consists only of
whitespace, which yields `media = some ""` with `mediaOrig` absent. -/
theorem normalizer_media_presence (cf : Option String) (r : Row) (q : Question)
    (h : normalizeRow cf r = RowOutcome.emitted q) :
    (¬(r.mediaName.truthy = true ∧ pyStrip r.mediaName.pyStr = "") →
        ((q.media.isSome = true ↔ q.mediaOrig.isSome = true) ∧
         (q.media = Option.none ↔ r.mediaName.truthy = false))) ∧
    ((r.mediaName.truthy = true ∧ pyStrip r.mediaName.pyStr = "") →
        q.media = some "" ∧ q.mediaOrig = Option.none) := by
  obtain ⟨ha, iv, hid, hq⟩ := emitted_eq h
  subst hq
  have h1 : (mkQuestion r iv).media = (rowMedia r).1 := rfl
  have h2 : (mkQuestion r iv).mediaOrig = (rowMedia r).2 := rfl
  rw [h1, h2]
  exact rowMedia_spec r

/-- C4, witness: the amended theorem applied to a row with a normal media
filename. -/
theorem normalizer_media_presence_witness :
    (¬((PyVal.s "img.jpg").truthy = true ∧ pyStrip (PyVal.s "img.jpg").pyStr = "") →
        (((some "img.jpg" : Option String).isSome = true ↔
          (some "img.jpg" : Option String).isSome = true) ∧
         ((some "img.jpg" : Option String) = Option.none ↔
          (PyVal.s "img.jpg").truthy = false))) ∧
    (((PyVal.s "img.jpg").truthy = true ∧ pyStrip (PyVal.s "img.jpg").pyStr = "") →
        (some "img.jpg" : Option String) = some "" ∧
        (some "img.jpg" : Option String) = Option.none) :=
  normalizer_media_presence (some "B")
    ⟨PyVal.i 1, PyVal.i 7, PyVal.s "q", PyVal.none, PyVal.none, PyVal.none,
      PyVal.s "T", PyVal.s "img.jpg", PyVal.none, PyVal.s "A,B"⟩
    { id := PyVal.i 7, text := "q", type := QType.TN, answers := Option.none,
      correct := "T", media := some "img.jpg", mediaOrig := some "img.jpg",
      struct := "PODSTAWOWY" }
    (by decide)

/-- C5, counterexample: a row whose question-number cell is the non-numeric
string `"abc"` raises `ValueError` in `int(...)`, which escapes the row
loop and aborts the whole parse, refuting the no-exception claim. -/
theorem normalizer_no_exception_counterexample :
    normalizeRow (some "B")
        ⟨PyVal.i 1, PyVal.s "abc", PyVal.s "q", PyVal.none, PyVal.none, PyVal.none,
          PyVal.s "T", PyVal.none, PyVal.none, PyVal.s "A,B"⟩
      = RowOutcome.error ∧
    parseRows (some "B")
        [⟨PyVal.i 1, PyVal.s "abc", PyVal.s "q", PyVal.none, PyVal.none, PyVal.none,
          PyVal.s "T", PyVal.none, PyVal.none, PyVal.s "A,B"⟩] ([], 0)
      = Except.error () := by
  constructor
  · decide
  · rfl

/-- C5, amended: a row with a falsy prompt, falsy correctness token, or a
failing category filter is skipped (and counted), never fatal; the only
exception that can escape the per-row processing is `int` applied to a truthy,
non-numeric question-number cell. -/
theorem normalizer_skip_vs_fatal (cf : Option String) (r : Row) :
    ((r.text.truthy = false ∨ r.correct.truthy = false ∨ catsOk cf r.categories = false) →
        normalizeRow cf r = RowOutcome.skipped) ∧
    (normalizeRow cf r = RowOutcome.error →
        r.number.truthy = true ∧ pyInt r.number = Option.none) ∧
    (normalizeRow cf r = RowOutcome.skipped → parseRows cf [r] ([], 0) = Except.ok ([], 1)) := by
  refine ⟨?_, ?_, ?_⟩
  · intro hcase
    have hna : rowAccepted cf r = false := by
      unfold rowAccepted
      rcases hcase with h1 | h1 | h1 <;> simp [h1]
    unfold normalizeRow
    rw [hna]
    rfl
  · intro herr
    unfold normalizeRow at herr
    by_cases ha : rowAccepted cf r = true
    · rw [if_pos ha] at herr
      cases hid : rowId r with
      | none =>
        unfold rowId at hid
        by_cases hn : r.number.truthy = true
        · rw [if_pos hn] at hid
          refine ⟨hn, ?_⟩
          cases hpi : pyInt r.number with
          | none => rfl
          | some v => rw [hpi] at hid; cases hid
        · rw [if_neg hn] at hid
          cases hid
      | some iv => rw [hid] at herr; cases herr
    · rw [if_neg ha] at herr
      cases herr
  · intro hskip
    unfold parseRows
    rw [hskip]
    rfl

/-- A concrete row with a blank prompt cell, used to witness the skip
behaviour. -/
def rowBlankPrompt : Row :=
  ⟨PyVal.i 1, PyVal.i 7, PyVal.none, PyVal.none, PyVal.none, PyVal.none,
    PyVal.s "T", PyVal.none, PyVal.none, PyVal.s "A,B"⟩

/-- C5, witness: the amended theorem applied to a concrete row with a
missing prompt, which is skipped and counted. -/
theorem normalizer_skip_vs_fatal_witness :
    normalizeRow (some "B") rowBlankPrompt = RowOutcome.skipped ∧
    parseRows (some "B") [rowBlankPrompt] ([], 0) = Except.ok ([], 1) := by
  have h := normalizer_skip_vs_fatal (some "B") rowBlankPrompt
  have hs := h.1 (Or.inl (by decide))
  exact ⟨hs, h.2.2 hs⟩

/-- C8: for an accepted row with correctness token `"T"` or `"N"` the record
is true/false with no answers; for any other token it is multiple choice
and the answers hold exactly the truthy choice cells, stripped. -/
theorem normalizer_type_answers (cf : Option String) (r : Row) (q : Question)
    (h : normalizeRow cf r = RowOutcome.emitted q) :
    ((r.correct = PyVal.s "T" ∨ r.correct = PyVal.s "N") →
        q.type = QType.TN ∧ q.answers = Option.none) ∧
    (¬(r.correct = PyVal.s "T" ∨ r.correct = PyVal.s "N") →
        q.type = QType.ABC ∧ ∃ al, q.answers = some al ∧
          ∀ lab v, (lab, v) ∈ al ↔
            ((lab = "A" ∧ r.ansA.truthy = true ∧ v = pyStrip r.ansA.pyStr) ∨
             (lab = "B" ∧ r.ansB.truthy = true ∧ v = pyStrip r.ansB.pyStr) ∨
             (lab = "C" ∧ r.ansC.truthy = true ∧ v = pyStrip r.ansC.pyStr))) := by
  obtain ⟨ha, iv, hid, hq⟩ := emitted_eq h
  subst hq
  have h1 : (mkQuestion r iv).type = (rowTypeAnswers r).1 := rfl
  have h2 : (mkQuestion r iv).answers = (rowTypeAnswers r).2 := rfl
  rw [h1, h2]
  unfold rowTypeAnswers
  by_cases hTN : r.correct = PyVal.s "T" ∨ r.correct = PyVal.s "N"
  · rw [if_pos hTN]
    exact ⟨fun _ => ⟨rfl, rfl⟩, fun hno => absurd hTN hno⟩
  · rw [if_neg hTN]
    refine ⟨fun hyes => absurd hyes hTN, fun _ => ⟨rfl, _, rfl, ?_⟩⟩
    intro lab v
    cases hA : r.ansA.truthy <;> cases hB : r.ansB.truthy <;> cases hC : r.ansC.truthy <;>
      simp [hA, hB, hC, List.mem_append, Prod.mk.injEq]

/-- A concrete multiple-choice row used to witness the answers
characterisation. -/
def rowMC : Row :=
  ⟨PyVal.i 1, PyVal.i 7, PyVal.s "q", PyVal.s "x ", PyVal.s " y", PyVal.none,
    PyVal.s "A", PyVal.none, PyVal.none, PyVal.s "A,B"⟩

/-- The record emitted for `rowMC`. -/
def qMC : Question :=
  { id := PyVal.i 7, text := "q", type := QType.ABC,
    answers := some [("A", "x"), ("B", "y")], correct := "A",
    media := Option.none, mediaOrig := Option.none, struct := "PODSTAWOWY" }

/-- C8, witness: the theorem applied to a concrete multiple-choice row with
two truthy choice cells. -/
theorem normalizer_type_answers_witness :
    qMC.type = QType.ABC ∧ ∃ al, qMC.answers = some al ∧
      ∀ lab v, (lab, v) ∈ al ↔
        ((lab = "A" ∧ rowMC.ansA.truthy = true ∧ v = pyStrip rowMC.ansA.pyStr) ∨
         (lab = "B" ∧ rowMC.ansB.truthy = true ∧ v = pyStrip rowMC.ansB.pyStr) ∨
         (lab = "C" ∧ rowMC.ansC.truthy = true ∧ v = pyStrip rowMC.ansC.pyStr)) := by
  have h := normalizer_type_answers (some "B") rowMC qMC (by decide)
  exact h.2 (by decide)

/-- C9: for every emitted record with an original media name, a name ending
case-insensitively in `.wmv` has its `media` equal to the original's stem
with the `.webm` extension — the same stem, only the extension rewritten —
and any other name is kept unchanged in `media`. -/
theorem normalizer_media_extension (cf : Option String) (r : Row) (q : Question) (m : String)
    (h : normalizeRow cf r = RowOutcome.emitted q) (hm : q.mediaOrig = some m) :
    (pyEndsWith (pyLower m) ".wmv" = true →
        q.media = some ((pySplitext m).1 ++ ".webm") ∧
        pySplitext ((pySplitext m).1 ++ ".webm") = ((pySplitext m).1, ".webm") ∧
        (pySplitext m).1 ++ (pySplitext m).2 = m) ∧
    (pyEndsWith (pyLower m) ".wmv" = false → q.media = some m) := by
  obtain ⟨ha, iv, hid, hq⟩ := emitted_eq h
  subst hq
  have h1 : (mkQuestion r iv).media = (rowMedia r).1 := rfl
  have h2 : (mkQuestion r iv).mediaOrig = (rowMedia r).2 := rfl
  rw [h2] at hm
  rw [h1]
  unfold rowMedia at hm ⊢
  by_cases ht : r.mediaName.truthy = true
  · rw [if_pos ht] at hm ⊢
    by_cases hstrip : pyStrip r.mediaName.pyStr = ""
    · rw [if_pos hstrip] at hm
      cases hm
    · rw [if_neg hstrip] at hm
      injection hm with hm
      rw [pyStrip_idem] at hm
      rw [hm]
      constructor
      · intro hw
        rw [if_pos hw]
        exact ⟨rfl, pySplitext_stem_webm hw, pySplitext_append m⟩
      · intro hw
        rw [if_neg (by rw [hw]; exact Bool.false_ne_true)]
  · rw [if_neg ht] at hm
    cases hm

/-- A concrete row with a raw video media name (note the trailing space in
the cell, removed by stripping). -/
def rowVid : Row :=
  ⟨PyVal.i 1, PyVal.i 7, PyVal.s "q", PyVal.none, PyVal.none, PyVal.none,
    PyVal.s "T", PyVal.s "Clip.WMV ", PyVal.none, PyVal.s "A,B"⟩

/-- The record emitted for `rowVid`. -/
def qVid : Question :=
  { id := PyVal.i 7, text := "q", type := QType.TN, answers := Option.none,
    correct := "T", media := some "Clip.webm", mediaOrig := some "Clip.WMV",
    struct := "PODSTAWOWY" }

/-- C9, witness: the theorem applied to a concrete row whose media cell
holds an uppercase `.WMV` name. -/
theorem normalizer_media_extension_witness :
    qVid.media = some ((pySplitext "Clip.WMV").1 ++ ".webm") ∧
    pySplitext ((pySplitext "Clip.WMV").1 ++ ".webm") = ((pySplitext "Clip.WMV").1, ".webm") ∧
    (pySplitext "Clip.WMV").1 ++ (pySplitext "Clip.WMV").2 = "Clip.WMV" := by
  have h := normalizer_media_extension (some "B") rowVid qVid "Clip.WMV" (by decide) rfl
  exact h.1 (by decide)

/-- Joining with `os.path.join` under a fixed directory is injective in the filename. -/
theorem pyJoin_inj {d f1 f2 : String} (h : pyJoin d f1 = pyJoin d f2) : f1 = f2 := by
  unfold pyJoin at h
  have hd : (d ++ "/" ++ f1).data = (d ++ "/" ++ f2).data := congrArg String.data h
  rw [String.data_append, String.data_append] at hd
  have := List.append_cancel_left hd
  cases f1
  cases f2
  exact congrArg String.mk this

/-- A joined path lies under its directory. -/
theorem underDir_pyJoin (d f : String) : underDir d (pyJoin d f) = true := by
  unfold underDir pyJoin
  apply Bool.or_eq_true_iff.mpr
  right
  apply List.isPrefixOf_iff_prefix.mpr
  rw [String.data_append]
  exact List.prefix_append _ _

/-- The frame relation of a normally completed extraction at one path:
either untouched, or freshly created with the full content of some
successfully read archive member. -/
def frameOkAt (ar : Archive) (fs0 fsF : FS) (p : String) : Prop :=
  fsF p = fs0 p ∨
    (fs0 p = Option.none ∧ ∃ z c, ar.read z = some c ∧ fsF p = some (Entry.file c))

/-- The frame relation of extraction on any exit path: as for a normal
completion, except that the asset whose member read raised may be left as
a freshly created empty file (the destination was opened for writing
before the read). -/
def frameAt (ar : Archive) (fs0 fsF : FS) (p : String) : Prop :=
  frameOkAt ar fs0 fsF p ∨ (fs0 p = Option.none ∧ fsF p = some (Entry.file []))

/-- Writing full member content at a path absent from the baseline
filesystem preserves the normal-completion frame relation everywhere. -/
theorem frameOkAt_write0 {ar : Archive} {fs0 fsc : FS} (p0 : String) (c : List Nat)
    (z : String) (hz : ar.read z = some c) (h0 : fs0 p0 = Option.none)
    (hinv : ∀ p, frameOkAt ar fs0 fsc p) :
    ∀ p, frameOkAt ar fs0 (fsWrite fsc p0 c) p := by
  intro p
  by_cases hp : p = p0
  · subst hp
    right
    exact ⟨h0, z, c, hz, by simp [fsWrite]⟩
  · have he : fsWrite fsc p0 c p = fsc p := by simp [fsWrite, hp]
    rcases hinv p with h | ⟨hn, z', c', hz', hv⟩
    · left
      rw [he, h]
    · right
      exact ⟨hn, z', c', hz', by rw [he, hv]⟩

/-- A write at a path other than the one inspected carries the any-exit
frame relation over. -/
theorem frameAt_other {ar : Archive} {fs0 fsc : FS} {p0 p : String} (c : List Nat)
    (hp : p ≠ p0) (hf : frameAt ar fs0 fsc p) :
    frameAt ar fs0 (fsWrite fsc p0 c) p := by
  have he : fsWrite fsc p0 c p = fsc p := by simp [fsWrite, hp]
  unfold frameAt frameOkAt at hf ⊢
  rw [he]
  exact hf

/-- Writing full member content at a path absent from the baseline
filesystem preserves the any-exit frame relation everywhere. -/
theorem frameAt_write0 {ar : Archive} {fs0 fsc : FS} (p0 : String) (c : List Nat) (z : String)
    (hz : ar.read z = some c) (h0 : fs0 p0 = Option.none)
    (hinv : ∀ p, frameAt ar fs0 fsc p) :
    ∀ p, frameAt ar fs0 (fsWrite fsc p0 c) p := by
  intro p
  by_cases hp : p = p0
  · subst hp
    exact Or.inl (Or.inr ⟨h0, z, c, hz, by simp [fsWrite]⟩)
  · exact frameAt_other c hp (hinv p)

/-- Creating/truncating an empty file at a path absent from the baseline
filesystem (the destination of a read that then raises) preserves the
any-exit frame relation everywhere. -/
theorem frameAt_trunc0 {ar : Archive} {fs0 fsc : FS} (p0 : String)
    (h0 : fs0 p0 = Option.none) (hinv : ∀ p, frameAt ar fs0 fsc p) :
    ∀ p, frameAt ar fs0 (fsWrite fsc p0 []) p := by
  intro p
  by_cases hp : p = p0
  · subst hp
    exact Or.inr ⟨h0, by simp [fsWrite]⟩
  · exact frameAt_other [] hp (hinv p)

/-- Under the any-exit frame relation, a path holding a file in the
baseline filesystem is untouched. -/
theorem frameAt_of_some {ar : Archive} {fs0 fsF : FS} {p : String}
    (hf : frameAt ar fs0 fsF p) {e : Entry} (he : fs0 p = some e) : fsF p = some e := by
  rcases hf with hf | ⟨hn, _⟩
  · rcases hf with hf | ⟨hn, _⟩
    · rw [hf, he]
    · rw [he] at hn
      cases hn
  · rw [he] at hn
    cases hn

/-- A loop whose every step preserves a filesystem invariant preserves it
on both exit paths. -/
theorem runSteps_inv (P : FS → Prop) (step : ExSt → String → Except (Exc × ExSt) ExSt)
    (hstep : ∀ st x, P st.fs → P (stOf (step st x)).fs) :
    ∀ (l : List String) (st : ExSt), P st.fs → P (stOf (runSteps step l st)).fs := by
  intro l
  induction l with
  | nil => intro st h; exact h
  | cons x xs ih =>
    intro st h
    unfold runSteps
    cases hs : step st x with
    | ok st' =>
      have hx := hstep st x h
      rw [hs] at hx
      exact ih st' hx
    | error e =>
      have hx := hstep st x h
      rw [hs] at hx
      exact hx

/-- Image iteration, skip branch: the target already exists. -/
theorem imageStep_skip {ar : Archive} {nm : String → Option String} {mediaDir : String}
    {st : ExSt} {img : String} (hex : (st.fs (pyJoin mediaDir img)).isSome = true) :
    imageStep ar nm mediaDir st img
      = Except.ok { st with imagesSkip := st.imagesSkip + 1 } := by
  unfold imageStep
  rw [if_pos hex]

/-- Image iteration, not-found branch: the index lacks the basename. -/
theorem imageStep_notFound {ar : Archive} {nm : String → Option String} {mediaDir : String}
    {st : ExSt} {img : String} (hex : (st.fs (pyJoin mediaDir img)).isSome = false)
    (hnm : nm (pyLower img) = Option.none) :
    imageStep ar nm mediaDir st img
      = Except.ok { st with notFound := st.notFound + 1 } := by
  unfold imageStep
  rw [if_neg (by simp [hex])]
  simp only [hnm]

/-- Image iteration, raise branch: reading the member fails. -/
theorem imageStep_readErr {ar : Archive} {nm : String → Option String} {mediaDir : String}
    {st : ExSt} {img z : String} (hex : (st.fs (pyJoin mediaDir img)).isSome = false)
    (hnm : nm (pyLower img) = some z) (hrd : ar.read z = Option.none) :
    imageStep ar nm mediaDir st img
      = Except.error (Exc.readError z,
          { st with fs := fsWrite st.fs (pyJoin mediaDir img) [] }) := by
  unfold imageStep
  rw [if_neg (by simp [hex])]
  simp only [hnm, hrd]

/-- Image iteration, write branch: the member is read in full and written. -/
theorem imageStep_write {ar : Archive} {nm : String → Option String} {mediaDir : String}
    {st : ExSt} {img z : String} {c : List Nat}
    (hex : (st.fs (pyJoin mediaDir img)).isSome = false)
    (hnm : nm (pyLower img) = some z) (hrd : ar.read z = some c) :
    imageStep ar nm mediaDir st img
      = Except.ok { st with
          fs := fsWrite st.fs (pyJoin mediaDir img) c
          imagesDone := st.imagesDone + 1
          reads := st.reads ++ [(img, z)] } := by
  unfold imageStep
  rw [if_neg (by simp [hex])]
  simp only [hnm, hrd]

/-- Video iteration, not-found branch. -/
theorem wmvStep_notFound {ar : Archive} {nm : String → Option String} {scratchDir : String}
    {st : ExSt} {w : String} (hnm : nm (pyLower w) = Option.none) :
    wmvStep ar nm scratchDir st w = Except.ok { st with notFound := st.notFound + 1 } := by
  unfold wmvStep
  simp only [hnm]

/-- Video iteration, raise branch. -/
theorem wmvStep_readErr {ar : Archive} {nm : String → Option String} {scratchDir : String}
    {st : ExSt} {w z : String} (hnm : nm (pyLower w) = some z)
    (hrd : ar.read z = Option.none) :
    wmvStep ar nm scratchDir st w
      = Except.error (Exc.readError z,
          { st with fs := fsWrite st.fs (pyJoin scratchDir w) [] }) := by
  unfold wmvStep
  simp only [hnm, hrd]

/-- Video iteration, write branch. -/
theorem wmvStep_write {ar : Archive} {nm : String → Option String} {scratchDir : String}
    {st : ExSt} {w z : String} {c : List Nat} (hnm : nm (pyLower w) = some z)
    (hrd : ar.read z = some c) :
    wmvStep ar nm scratchDir st w
      = Except.ok { st with
          fs := fsWrite st.fs (pyJoin scratchDir w) c
          wmvExtracted := st.wmvExtracted + 1
          reads := st.reads ++ [(w, z)] } := by
  unfold wmvStep
  simp only [hnm, hrd]

/-- Baseline absence follows from current absence under the frame
relation. -/
theorem frameAt_none_of_cur_none {ar : Archive} {fs0 fsc : FS} {p : String}
    (hf : frameAt ar fs0 fsc p) (hc : fsc p = Option.none) : fs0 p = Option.none := by
  rcases hf with hf | ⟨hn, _⟩
  · rcases hf with hf | ⟨hn, _⟩
    · rw [← hf, hc]
    · exact hn
  · exact hn

/-- One image iteration preserves the frame relation, on both outcomes. -/
theorem imageStep_frame (ar : Archive) (nm : String → Option String) (mediaDir : String)
    (fs0 : FS) :
    ∀ (st : ExSt) (img : String), (∀ p, frameAt ar fs0 st.fs p) →
      ∀ p, frameAt ar fs0 (stOf (imageStep ar nm mediaDir st img)).fs p := by
  intro st img hinv p
  by_cases hex : (st.fs (pyJoin mediaDir img)).isSome = true
  · rw [imageStep_skip hex]
    exact hinv p
  · have hex' : (st.fs (pyJoin mediaDir img)).isSome = false := Bool.eq_false_iff.mpr hex
    have hnone : st.fs (pyJoin mediaDir img) = Option.none := by
      cases hv : st.fs (pyJoin mediaDir img) with
      | none => rfl
      | some e => rw [hv] at hex'; cases hex'
    have h0 : fs0 (pyJoin mediaDir img) = Option.none :=
      frameAt_none_of_cur_none (hinv (pyJoin mediaDir img)) hnone
    cases hnm : nm (pyLower img) with
    | none =>
      rw [imageStep_notFound hex' hnm]
      exact hinv p
    | some z =>
      cases hrd : ar.read z with
      | none =>
        rw [imageStep_readErr hex' hnm hrd]
        exact frameAt_trunc0 _ h0 hinv p
      | some c =>
        rw [imageStep_write hex' hnm hrd]
        exact frameAt_write0 _ c z hrd h0 hinv p

/-- One video iteration preserves the frame relation, on both outcomes,
given that the baseline filesystem is empty under the scratch directory. -/
theorem wmvStep_frame (ar : Archive) (nm : String → Option String) (scratchDir : String)
    (fs0 : FS) (hsc : ∀ p, underDir scratchDir p = true → fs0 p = Option.none) :
    ∀ (st : ExSt) (w : String), (∀ p, frameAt ar fs0 st.fs p) →
      ∀ p, frameAt ar fs0 (stOf (wmvStep ar nm scratchDir st w)).fs p := by
  intro st w hinv p
  cases hnm : nm (pyLower w) with
  | none =>
    rw [wmvStep_notFound hnm]
    exact hinv p
  | some z =>
    cases hrd : ar.read z with
    | none =>
      rw [wmvStep_readErr hnm hrd]
      exact frameAt_trunc0 _ (hsc _ (underDir_pyJoin scratchDir w)) hinv p
    | some c =>
      rw [wmvStep_write hnm hrd]
      exact frameAt_write0 _ c z hrd (hsc _ (underDir_pyJoin scratchDir w)) hinv p

/-- One image iteration that returns normally preserves the
normal-completion frame relation. -/
theorem imageStep_okFrame (ar : Archive) (nm : String → Option String) (mediaDir : String)
    (fs0 : FS) :
    ∀ (st : ExSt) (img : String) (st'' : ExSt),
      imageStep ar nm mediaDir st img = Except.ok st'' →
      (∀ p, frameOkAt ar fs0 st.fs p) → ∀ p, frameOkAt ar fs0 st''.fs p := by
  intro st img st'' hok hinv p
  by_cases hex : (st.fs (pyJoin mediaDir img)).isSome = true
  · rw [imageStep_skip hex] at hok
    injection hok with hok
    subst hok
    exact hinv p
  · have hex' : (st.fs (pyJoin mediaDir img)).isSome = false := Bool.eq_false_iff.mpr hex
    have hnone : st.fs (pyJoin mediaDir img) = Option.none := by
      cases hv : st.fs (pyJoin mediaDir img) with
      | none => rfl
      | some e => rw [hv] at hex'; cases hex'
    have h0 : fs0 (pyJoin mediaDir img) = Option.none := by
      rcases hinv (pyJoin mediaDir img) with h | ⟨hn, _⟩
      · rw [← h, hnone]
      · exact hn
    cases hnm : nm (pyLower img) with
    | none =>
      rw [imageStep_notFound hex' hnm] at hok
      injection hok with hok
      subst hok
      exact hinv p
    | some z =>
      cases hrd : ar.read z with
      | none =>
        rw [imageStep_readErr hex' hnm hrd] at hok
        cases hok
      | some c =>
        rw [imageStep_write hex' hnm hrd] at hok
        injection hok with hok
        subst hok
        exact frameOkAt_write0 _ c z hrd h0 hinv p

/-- One video iteration that returns normally preserves the
normal-completion frame relation, given an initially empty scratch
directory. -/
theorem wmvStep_okFrame (ar : Archive) (nm : String → Option String) (scratchDir : String)
    (fs0 : FS) (hsc : ∀ p, underDir scratchDir p = true → fs0 p = Option.none) :
    ∀ (st : ExSt) (w : String) (st'' : ExSt),
      wmvStep ar nm scratchDir st w = Except.ok st'' →
      (∀ p, frameOkAt ar fs0 st.fs p) → ∀ p, frameOkAt ar fs0 st''.fs p := by
  intro st w st'' hok hinv p
  cases hnm : nm (pyLower w) with
  | none =>
    rw [wmvStep_notFound hnm] at hok
    injection hok with hok
    subst hok
    exact hinv p
  | some z =>
    cases hrd : ar.read z with
    | none =>
      rw [wmvStep_readErr hnm hrd] at hok
      cases hok
    | some c =>
      rw [wmvStep_write hnm hrd] at hok
      injection hok with hok
      subst hok
      exact frameOkAt_write0 _ c z hrd (hsc _ (underDir_pyJoin scratchDir w)) hinv p

/-- A loop whose every normally returning step preserves a filesystem
invariant preserves it across a normal completion. -/
theorem runSteps_inv_ok (P : FS → Prop) (step : ExSt → String → Except (Exc × ExSt) ExSt)
    (hstep : ∀ st x st'', step st x = Except.ok st'' → P st.fs → P st''.fs) :
    ∀ (l : List String) (st st' : ExSt),
      runSteps step l st = Except.ok st' → P st.fs → P st'.fs := by
  intro l
  induction l with
  | nil =>
    intro st st' h hp
    injection h with h
    subst h
    exact hp
  | cons x xs ih =>
    intro st st' h hp
    unfold runSteps at h
    cases hs : step st x with
    | ok st1 =>
      simp only [hs] at h
      exact ih st1 st' h (hstep st x st1 hs hp)
    | error e =>
      simp only [hs] at h
      cases h

/-- An archive whose one member cannot be read, for the C10
counterexample. -/
def arBadRead : Archive := ⟨true, ["a.jpg"], fun _ => Option.none⟩

/-- C10, counterexample: a needed image whose target does not exist is
resolved against the index, but reading its member raises; because the
destination is opened for writing before the read, the run exits
exceptionally with a fresh empty file at the target — the extraction
neither skipped the asset nor wrote the full member content, refuting the
claim as stated. -/
theorem extraction_full_write_counterexample :
    buildNameMap arBadRead.members (pyLower "a.jpg") = some "a.jpg" ∧
    (fun _ => (Option.none : Option Entry)) (pyJoin "media" "a.jpg") = Option.none ∧
    arBadRead.read "a.jpg" = Option.none ∧
    (extractPasses arBadRead (buildNameMap arBadRead.members) "media" "tmp" ["a.jpg"] []
        (initSt (fun _ => Option.none))).isOk = false ∧
    (stOf (extractPasses arBadRead (buildNameMap arBadRead.members) "media" "tmp" ["a.jpg"]
        [] (initSt (fun _ => Option.none)))).fs (pyJoin "media" "a.jpg")
      = some (Entry.file []) := by
  refine ⟨rfl, rfl, rfl, rfl, rfl⟩

/-- C10 (amended): extraction never overwrites an existing output file —
on every exit path, normal or exceptional, a path holding a file in the
pre-run filesystem keeps its content, and every path is either untouched,
a fresh file holding the full content of a successfully read archive
member, or — only on an exceptional exit — the fresh empty file left at
the destination of the read that raised; on a normal completion every
touched path holds full member content (hypothesis: the freshly created
scratch directory starts empty). -/
theorem extraction_no_overwrite (ar : Archive) (mediaDir scratchDir : String)
    (imgs vtc : List String) (fs0 : FS)
    (hsc : ∀ p, underDir scratchDir p = true → fs0 p = Option.none) :
    (∀ p, frameAt ar fs0
        (stOf (extractPasses ar (buildNameMap ar.members) mediaDir scratchDir imgs vtc
          (initSt fs0))).fs p) ∧
    (∀ p e, fs0 p = some e →
        (stOf (extractPasses ar (buildNameMap ar.members) mediaDir scratchDir imgs vtc
          (initSt fs0))).fs p = some e) ∧
    (∀ st', extractPasses ar (buildNameMap ar.members) mediaDir scratchDir imgs vtc
          (initSt fs0) = Except.ok st' →
        ∀ p, frameOkAt ar fs0 st'.fs p) := by
  have hmain : ∀ p, frameAt ar fs0
      (stOf (extractPasses ar (buildNameMap ar.members) mediaDir scratchDir imgs vtc
        (initSt fs0))).fs p := by
    unfold extractPasses
    cases himg : runSteps (imageStep ar (buildNameMap ar.members) mediaDir) imgs (initSt fs0) with
    | error e =>
      have h := runSteps_inv (fun fs => ∀ p, frameAt ar fs0 fs p) _
        (imageStep_frame ar (buildNameMap ar.members) mediaDir fs0) imgs (initSt fs0)
        (fun p => Or.inl (Or.inl rfl))
      rw [himg] at h
      exact h
    | ok st1 =>
      have h := runSteps_inv (fun fs => ∀ p, frameAt ar fs0 fs p) _
        (imageStep_frame ar (buildNameMap ar.members) mediaDir fs0) imgs (initSt fs0)
        (fun p => Or.inl (Or.inl rfl))
      rw [himg] at h
      exact runSteps_inv (fun fs => ∀ p, frameAt ar fs0 fs p) _
        (wmvStep_frame ar (buildNameMap ar.members) scratchDir fs0 hsc) vtc st1 h
  refine ⟨hmain, fun p e he => frameAt_of_some (hmain p) he, ?_⟩
  intro st' hok
  unfold extractPasses at hok
  cases himg : runSteps (imageStep ar (buildNameMap ar.members) mediaDir) imgs (initSt fs0) with
  | error e =>
    rw [himg] at hok
    cases hok
  | ok st1 =>
    rw [himg] at hok
    have hok' : runSteps (wmvStep ar (buildNameMap ar.members) scratchDir) vtc st1
        = Except.ok st' := hok
    have h1 : ∀ q, frameOkAt ar fs0 st1.fs q :=
      runSteps_inv_ok (fun fs => ∀ q, frameOkAt ar fs0 fs q) _
        (fun st x st'' hst hp => imageStep_okFrame ar (buildNameMap ar.members) mediaDir fs0
          st x st'' hst hp) imgs (initSt fs0) st1 himg (fun q => Or.inl rfl)
    exact runSteps_inv_ok (fun fs => ∀ q, frameOkAt ar fs0 fs q) _
      (fun st x st'' hst hp => wmvStep_okFrame ar (buildNameMap ar.members) scratchDir fs0 hsc
        st x st'' hst hp) vtc st1 st' hok' h1

/-- C10, witness: the frame theorem applied to a concrete one-image run
over an empty filesystem, a readable archive and a fresh scratch
directory. -/
theorem extraction_no_overwrite_witness :
    (∀ p, frameAt ⟨true, ["img.jpg"], fun _ => some [1]⟩ (fun _ => Option.none)
        (stOf (extractPasses ⟨true, ["img.jpg"], fun _ => some [1]⟩
          (buildNameMap ["img.jpg"]) "media" "tmp" ["img.jpg"] []
          (initSt (fun _ => Option.none)))).fs p) ∧
    (∀ p e, (fun _ => (Option.none : Option Entry)) p = some e →
        (stOf (extractPasses ⟨true, ["img.jpg"], fun _ => some [1]⟩
          (buildNameMap ["img.jpg"]) "media" "tmp" ["img.jpg"] []
          (initSt (fun _ => Option.none)))).fs p = some e) ∧
    (∀ st', extractPasses ⟨true, ["img.jpg"], fun _ => some [1]⟩
          (buildNameMap ["img.jpg"]) "media" "tmp" ["img.jpg"] []
          (initSt (fun _ => Option.none)) = Except.ok st' →
        ∀ p, frameOkAt ⟨true, ["img.jpg"], fun _ => some [1]⟩ (fun _ => Option.none)
          st'.fs p) :=
  extraction_no_overwrite ⟨true, ["img.jpg"], fun _ => some [1]⟩ "media" "tmp"
    ["img.jpg"] [] (fun _ => Option.none) (fun _ _ => rfl)

/-- C7: on every exit path of `extract_and_convert` — normal return from
the conversion phase, any of its early returns, or an exception raised by
the archive during open or extraction — every path under the scratch
directory is absent from the final filesystem: the `finally` block removes
the scratch tree before the function completes. -/
theorem scratch_removed_on_every_exit (ar : Archive) (env : ConvEnv)
    (mediaDir scratchDir : String) (qs : List Question) (fs0 : FS) (p : String)
    (hp : underDir scratchDir p = true) :
    (extract_and_convert ar env mediaDir scratchDir qs fs0).2 p = Option.none := by
  unfold extract_and_convert
  cases hE : extractBody ar env mediaDir scratchDir (neededSets qs).1
      (videosPartition (fsMkdir mediaDir fs0) mediaDir (neededSets qs).2).1
      (videosPartition (fsMkdir mediaDir fs0) mediaDir (neededSets qs).2).2
      (fsMkdir scratchDir (fsMkdir mediaDir fs0)) with
  | error e =>
    cases e with
    | mk exc fs2 =>
      show rmtree scratchDir fs2 p = Option.none
      simp [rmtree, hp]
  | ok r =>
    cases r with
    | mk rep fs2 =>
      show rmtree scratchDir fs2 p = Option.none
      simp [rmtree, hp]

/-- C7, witness: a concrete empty run leaves nothing at a path inside the
scratch directory. -/
theorem scratch_removed_on_every_exit_witness :
    (extract_and_convert ⟨true, [], fun _ => Option.none⟩
        ⟨true, true, 0, fun fs => fs⟩ "media" "tmp" [] (fun _ => Option.none)).2 "tmp/a.wmv"
      = Option.none :=
  scratch_removed_on_every_exit ⟨true, [], fun _ => Option.none⟩
    ⟨true, true, 0, fun fs => fs⟩ "media" "tmp" [] (fun _ => Option.none) "tmp/a.wmv"
    (by decide)

/-- Writing a file: the written path holds the full content. -/
theorem fsWrite_self (fs : FS) (p0 : String) (c : List Nat) :
    fsWrite fs p0 c p0 = some (Entry.file c) := by
  simp [fsWrite]

/-- Writing a file leaves every other path unchanged. -/
theorem fsWrite_ne (fs : FS) (p0 : String) (c : List Nat) {p : String} (hp : p ≠ p0) :
    fsWrite fs p0 c p = fs p := by
  simp [fsWrite, hp]

/-- The image pass over distinct needed images, with a healthy archive:
it completes without exception, counts as skipped exactly the images whose
target already exists, attributes archive reads only to images whose target
was absent, and leaves pre-existing files and unrelated paths unchanged. -/
theorem imageFold_spec (ar : Archive) (nm : String → Option String) (mediaDir : String)
    (har : ∀ z, (ar.read z).isSome = true) :
    ∀ (imgs : List String) (st : ExSt), imgs.Nodup →
      ∃ st', runSteps (imageStep ar nm mediaDir) imgs st = Except.ok st' ∧
        st'.imagesSkip = st.imagesSkip
            + imgs.countP (fun img => (st.fs (pyJoin mediaDir img)).isSome) ∧
        (∃ new, st'.reads = st.reads ++ new ∧
            ∀ pr ∈ new, pr.1 ∈ imgs ∧ st.fs (pyJoin mediaDir pr.1) = Option.none) ∧
        (∀ p, (st.fs p).isSome = true → st'.fs p = st.fs p) ∧
        (∀ p, (∀ img ∈ imgs, p ≠ pyJoin mediaDir img) → st'.fs p = st.fs p) := by
  intro imgs
  induction imgs with
  | nil =>
    intro st _
    exact ⟨st, rfl, by simp, ⟨[], by simp, by simp⟩, fun p _ => rfl, fun p _ => rfl⟩
  | cons img tl ih =>
    intro st hnd
    rw [List.nodup_cons] at hnd
    obtain ⟨hni, hndtl⟩ := hnd
    have hne_tl : ∀ x ∈ tl, pyJoin mediaDir x ≠ pyJoin mediaDir img := by
      intro x hx hjoin
      exact hni (pyJoin_inj hjoin ▸ hx)
    by_cases hex : (st.fs (pyJoin mediaDir img)).isSome = true
    · obtain ⟨st', hrun, hskip, ⟨new, hreads, hnew⟩, hpres, hfr⟩ :=
        ih { st with imagesSkip := st.imagesSkip + 1 } hndtl
      refine ⟨st', ?_, ?_, ⟨new, hreads, ?_⟩, hpres, ?_⟩
      · unfold runSteps
        rw [imageStep_skip hex]
        exact hrun
      · rw [hskip, List.countP_cons]
        simp only [hex, if_pos]
        omega
      · exact fun pr hpr => ⟨List.mem_cons_of_mem _ (hnew pr hpr).1, (hnew pr hpr).2⟩
      · intro p hp
        exact hfr p (fun x hx => hp x (List.mem_cons_of_mem _ hx))
    · have hex' : (st.fs (pyJoin mediaDir img)).isSome = false := Bool.eq_false_iff.mpr hex
      have hnone : st.fs (pyJoin mediaDir img) = Option.none := by
        cases hv : st.fs (pyJoin mediaDir img) with
        | none => rfl
        | some e => rw [hv] at hex'; cases hex'
      cases hnm : nm (pyLower img) with
      | none =>
        obtain ⟨st', hrun, hskip, ⟨new, hreads, hnew⟩, hpres, hfr⟩ :=
          ih { st with notFound := st.notFound + 1 } hndtl
        refine ⟨st', ?_, ?_, ⟨new, hreads, ?_⟩, hpres, ?_⟩
        · unfold runSteps
          rw [imageStep_notFound hex' hnm]
          exact hrun
        · rw [hskip, List.countP_cons]
          simp only [hex', if_neg]
          simp
        · exact fun pr hpr => ⟨List.mem_cons_of_mem _ (hnew pr hpr).1, (hnew pr hpr).2⟩
        · intro p hp
          exact hfr p (fun x hx => hp x (List.mem_cons_of_mem _ hx))
      | some z =>
        cases hrd : ar.read z with
        | none =>
          have hz := har z
          rw [hrd] at hz
          cases hz
        | some c =>
          obtain ⟨st', hrun, hskip, ⟨new, hreads, hnew⟩, hpres, hfr⟩ :=
            ih { st with
                  fs := fsWrite st.fs (pyJoin mediaDir img) c
                  imagesDone := st.imagesDone + 1
                  reads := st.reads ++ [(img, z)] } hndtl
          have hfs1 : ∀ x ∈ tl,
              fsWrite st.fs (pyJoin mediaDir img) c (pyJoin mediaDir x)
                = st.fs (pyJoin mediaDir x) :=
            fun x hx => fsWrite_ne _ _ _ (hne_tl x hx)
          refine ⟨st', ?_, ?_, ⟨(img, z) :: new, ?_, ?_⟩, ?_, ?_⟩
          · unfold runSteps
            rw [imageStep_write hex' hnm hrd]
            exact hrun
          · rw [hskip, List.countP_cons]
            have hcong : tl.countP (fun x =>
                  (fsWrite st.fs (pyJoin mediaDir img) c (pyJoin mediaDir x)).isSome)
                = tl.countP (fun x => (st.fs (pyJoin mediaDir x)).isSome) :=
              List.countP_congr (fun x hx => by rw [hfs1 x hx])
            rw [hcong]
            simp only [hex', if_neg]
            simp
          · rw [hreads]
            simp
          · intro pr hpr
            rcases List.mem_cons.mp hpr with hpr | hpr
            · subst hpr
              exact ⟨List.mem_cons_self _ _, hnone⟩
            · refine ⟨List.mem_cons_of_mem _ (hnew pr hpr).1, ?_⟩
              have h2 : fsWrite st.fs (pyJoin mediaDir img) c (pyJoin mediaDir pr.1)
                  = Option.none := (hnew pr hpr).2
              rwa [fsWrite_ne _ _ _ (hne_tl pr.1 (hnew pr hpr).1)] at h2
          · intro p hp
            have hpne : p ≠ pyJoin mediaDir img := by
              intro hpe
              rw [hpe, hex'] at hp
              cases hp
            have : (fsWrite st.fs (pyJoin mediaDir img) c p).isSome = true := by
              rw [fsWrite_ne _ _ _ hpne]
              exact hp
            rw [hpres p this]
            show fsWrite st.fs (pyJoin mediaDir img) c p = st.fs p
            exact fsWrite_ne _ _ _ hpne
          · intro p hp
            have hpne : p ≠ pyJoin mediaDir img := hp img (List.mem_cons_self _ _)
            rw [hfr p (fun x hx => hp x (List.mem_cons_of_mem _ hx))]
            show fsWrite st.fs (pyJoin mediaDir img) c p = st.fs p
            exact fsWrite_ne _ _ _ hpne

/-- The video pass, with a healthy archive: it completes without exception
and every new archive read is attributed to a slated video. -/
theorem wmvFold_spec (ar : Archive) (nm : String → Option String) (scratchDir : String)
    (har : ∀ z, (ar.read z).isSome = true) :
    ∀ (ws : List String) (st : ExSt),
      ∃ st', runSteps (wmvStep ar nm scratchDir) ws st = Except.ok st' ∧
        st'.imagesSkip = st.imagesSkip ∧
        (∃ new, st'.reads = st.reads ++ new ∧ ∀ pr ∈ new, pr.1 ∈ ws) := by
  intro ws
  induction ws with
  | nil => exact fun st => ⟨st, rfl, rfl, [], by simp, by simp⟩
  | cons w tl ih =>
    intro st
    cases hnm : nm (pyLower w) with
    | none =>
      obtain ⟨st', hrun, hskip, new, hreads, hnew⟩ := ih { st with notFound := st.notFound + 1 }
      refine ⟨st', ?_, hskip, new, hreads, ?_⟩
      · unfold runSteps
        rw [wmvStep_notFound hnm]
        exact hrun
      · exact fun pr hpr => List.mem_cons_of_mem _ (hnew pr hpr)
    | some z =>
      cases hrd : ar.read z with
      | none =>
        have hz := har z
        rw [hrd] at hz
        cases hz
      | some c =>
        obtain ⟨st', hrun, hskip, new, hreads, hnew⟩ := ih { st with
          fs := fsWrite st.fs (pyJoin scratchDir w) c
          wmvExtracted := st.wmvExtracted + 1
          reads := st.reads ++ [(w, z)] }
        refine ⟨st', ?_, hskip, (w, z) :: new, ?_, ?_⟩
        · unfold runSteps
          rw [wmvStep_write hnm hrd]
          exact hrun
        · rw [hreads]
          simp
        · intro pr hpr
          rcases List.mem_cons.mp hpr with hpr | hpr
          · subst hpr
            exact List.mem_cons_self _ _
          · exact List.mem_cons_of_mem _ (hnew pr hpr)

/-- Membership in the slated-for-conversion set: a needed video is slated
exactly when its converted output does not already exist. -/
theorem videosPartition_mem (fs : FS) (mediaDir : String) (l : List String) (w : String) :
    w ∈ (videosPartition fs mediaDir l).1 ↔
      w ∈ l ∧ (fs (pyJoin mediaDir (webmOf w))).isSome = false := by
  induction l with
  | nil => simp [videosPartition]
  | cons x tl ih =>
    unfold videosPartition
    by_cases hx : (fs (pyJoin mediaDir (webmOf x))).isSome = true
    · rw [if_pos hx]
      rw [ih]
      constructor
      · exact fun ⟨h1, h2⟩ => ⟨List.mem_cons_of_mem _ h1, h2⟩
      · rintro ⟨h1, h2⟩
        rcases List.mem_cons.mp h1 with h1 | h1
        · subst h1
          rw [hx] at h2
          cases h2
        · exact ⟨h1, h2⟩
    · rw [if_neg hx]
      have hx' : (fs (pyJoin mediaDir (webmOf x))).isSome = false := Bool.eq_false_iff.mpr hx
      constructor
      · intro hmem
        rcases List.mem_cons.mp hmem with h1 | h1
        · subst h1
          exact ⟨List.mem_cons_self _ _, hx'⟩
        · obtain ⟨h2, h3⟩ := ih.mp h1
          exact ⟨List.mem_cons_of_mem _ h2, h3⟩
      · rintro ⟨h1, h2⟩
        rcases List.mem_cons.mp h1 with h1 | h1
        · subst h1
          exact List.mem_cons_self _ _
        · exact List.mem_cons_of_mem _ (ih.mpr ⟨h1, h2⟩)

/-- The skipped-video counter counts exactly the needed videos whose
converted output already exists. -/
theorem videosPartition_count (fs : FS) (mediaDir : String) (l : List String) :
    (videosPartition fs mediaDir l).2
      = l.countP (fun w => (fs (pyJoin mediaDir (webmOf w))).isSome) := by
  induction l with
  | nil => simp [videosPartition]
  | cons x tl ih =>
    unfold videosPartition
    rw [List.countP_cons]
    by_cases hx : (fs (pyJoin mediaDir (webmOf x))).isSome = true
    · rw [if_pos hx]
      simp only [hx, if_pos]
      rw [ih]
    · rw [if_neg hx]
      have hx' : (fs (pyJoin mediaDir (webmOf x))).isSome = false := Bool.eq_false_iff.mpr hx
      simp only [hx', if_neg]
      simp [ih]

/-- Inserting into a set-modelled list preserves distinctness. -/
theorem setInsert_nodup {x : String} {l : List String} (h : l.Nodup) :
    (setInsert x l).Nodup := by
  unfold setInsert
  by_cases hx : x ∈ l
  · rw [if_pos hx]
    exact h
  · rw [if_neg hx]
    exact List.nodup_cons.mpr ⟨hx, h⟩

/-- Membership after a set insertion. -/
theorem setInsert_mem {x y : String} {l : List String} :
    y ∈ setInsert x l ↔ y = x ∨ y ∈ l := by
  unfold setInsert
  by_cases hx : x ∈ l
  · rw [if_pos hx]
    constructor
    · exact fun h => Or.inr h
    · rintro (rfl | h)
      · exact hx
      · exact h
  · rw [if_neg hx]
    exact List.mem_cons

/-- Unfolding `neededSets` over a record without media. -/
theorem neededSets_cons_none {q : Question} {tl : List Question}
    (hq : q.mediaOrig = Option.none) : neededSets (q :: tl) = neededSets tl := by
  simp only [neededSets, hq]

/-- Unfolding `neededSets` over a record with empty media. -/
theorem neededSets_cons_empty {q : Question} {tl : List Question} {orig : String}
    (hq : q.mediaOrig = some orig) (ho : orig = "") :
    neededSets (q :: tl) = neededSets tl := by
  simp only [neededSets, hq, ho]
  simp

/-- Unfolding `neededSets` over a record referencing a raw video. -/
theorem neededSets_cons_vid {q : Question} {tl : List Question} {orig : String}
    (hq : q.mediaOrig = some orig) (ho : ¬orig = "")
    (hw : pyEndsWith (pyLower orig) ".wmv" = true) :
    neededSets (q :: tl) = ((neededSets tl).1, setInsert orig (neededSets tl).2) := by
  simp only [neededSets, hq]
  rw [if_neg ho, if_pos hw]

/-- Unfolding `neededSets` over a record referencing an image. -/
theorem neededSets_cons_img {q : Question} {tl : List Question} {orig : String}
    (hq : q.mediaOrig = some orig) (ho : ¬orig = "")
    (hw : pyEndsWith (pyLower orig) ".wmv" = false) :
    neededSets (q :: tl) = (setInsert orig (neededSets tl).1, (neededSets tl).2) := by
  simp only [neededSets, hq]
  rw [if_neg ho, if_neg (by rw [hw]; exact Bool.false_ne_true)]

/-- Both need sets are duplicate-free. -/
theorem neededSets_nodup (qs : List Question) :
    (neededSets qs).1.Nodup ∧ (neededSets qs).2.Nodup := by
  induction qs with
  | nil => exact ⟨List.nodup_nil, List.nodup_nil⟩
  | cons q tl ih =>
    cases hq : q.mediaOrig with
    | none =>
      rw [neededSets_cons_none hq]
      exact ih
    | some orig =>
      by_cases ho : orig = ""
      · rw [neededSets_cons_empty hq ho]
        exact ih
      · by_cases hw : pyEndsWith (pyLower orig) ".wmv" = true
        · rw [neededSets_cons_vid hq ho hw]
          exact ⟨ih.1, setInsert_nodup ih.2⟩
        · rw [neededSets_cons_img hq ho (Bool.eq_false_iff.mpr hw)]
          exact ⟨setInsert_nodup ih.1, ih.2⟩

/-- Members of the image need set do not end in the raw video extension;
members of the video need set do. -/
theorem neededSets_ext (qs : List Question) :
    (∀ img ∈ (neededSets qs).1, pyEndsWith (pyLower img) ".wmv" = false) ∧
    (∀ w ∈ (neededSets qs).2, pyEndsWith (pyLower w) ".wmv" = true) := by
  induction qs with
  | nil => exact ⟨by simp [neededSets], by simp [neededSets]⟩
  | cons q tl ih =>
    cases hq : q.mediaOrig with
    | none =>
      rw [neededSets_cons_none hq]
      exact ih
    | some orig =>
      by_cases ho : orig = ""
      · rw [neededSets_cons_empty hq ho]
        exact ih
      · by_cases hw : pyEndsWith (pyLower orig) ".wmv" = true
        · rw [neededSets_cons_vid hq ho hw]
          refine ⟨ih.1, fun w hwm => ?_⟩
          rcases setInsert_mem.mp hwm with rfl | hm
          · exact hw
          · exact ih.2 w hm
        · rw [neededSets_cons_img hq ho (Bool.eq_false_iff.mpr hw)]
          refine ⟨fun img him => ?_, ih.2⟩
          rcases setInsert_mem.mp him with rfl | hm
          · exact Bool.eq_false_iff.mpr hw
          · exact ih.1 img hm

/-- C6: extraction is idempotent at asset granularity — with a healthy
archive, both passes complete; a needed image whose target already exists
triggers no archive read and the skip counter counts exactly those images;
a needed video whose converted output already exists is excluded from the
slated set (so never extracted and never passed to conversion), triggers no
archive read, and the video skip counter counts exactly those videos. -/
theorem extraction_idempotent (ar : Archive) (mediaDir scratchDir : String)
    (qs : List Question) (fs0 : FS) (har : ∀ z, (ar.read z).isSome = true) :
    ∃ st', extractPasses ar (buildNameMap ar.members) mediaDir scratchDir
        (neededSets qs).1 (videosPartition fs0 mediaDir (neededSets qs).2).1
        (initSt fs0) = Except.ok st' ∧
      st'.imagesSkip
          = ((neededSets qs).1).countP (fun img => (fs0 (pyJoin mediaDir img)).isSome) ∧
      (∀ img ∈ (neededSets qs).1, (fs0 (pyJoin mediaDir img)).isSome = true →
          ∀ pr ∈ st'.reads, pr.1 ≠ img) ∧
      (videosPartition fs0 mediaDir (neededSets qs).2).2
          = ((neededSets qs).2).countP
              (fun w => (fs0 (pyJoin mediaDir (webmOf w))).isSome) ∧
      (∀ w ∈ (neededSets qs).2, (fs0 (pyJoin mediaDir (webmOf w))).isSome = true →
          w ∉ (videosPartition fs0 mediaDir (neededSets qs).2).1 ∧
          ∀ pr ∈ st'.reads, pr.1 ≠ w) := by
  obtain ⟨st1, hrun1, hskip1, ⟨new1, hreads1, hnew1⟩, _, _⟩ :=
    imageFold_spec ar (buildNameMap ar.members) mediaDir har (neededSets qs).1
      (initSt fs0) (neededSets_nodup qs).1
  obtain ⟨st2, hrun2, hskip2, ⟨new2, hreads2, hnew2⟩⟩ :=
    wmvFold_spec ar (buildNameMap ar.members) scratchDir har
      (videosPartition fs0 mediaDir (neededSets qs).2).1 st1
  have hreads0 : (initSt fs0).reads = [] := rfl
  have hskip0 : (initSt fs0).imagesSkip = 0 := rfl
  have hfs0 : (initSt fs0).fs = fs0 := rfl
  rw [hreads0, List.nil_append] at hreads1
  rw [hskip0, hfs0, Nat.zero_add] at hskip1
  rw [hfs0] at hnew1
  refine ⟨st2, ?_, ?_, ?_, videosPartition_count fs0 mediaDir (neededSets qs).2, ?_⟩
  · unfold extractPasses
    rw [hrun1]
    exact hrun2
  · rw [hskip2, hskip1]
  · intro img himg hex pr hpr hpr1
    rw [hreads2, hreads1] at hpr
    rcases List.mem_append.mp hpr with hpr | hpr
    · have hthis := (hnew1 pr hpr).2
      rw [hpr1] at hthis
      rw [hthis] at hex
      cases hex
    · have hvtc := hnew2 pr hpr
      have hw := (videosPartition_mem fs0 mediaDir (neededSets qs).2 pr.1).mp hvtc
      have hwmv := (neededSets_ext qs).2 pr.1 hw.1
      have himv := (neededSets_ext qs).1 img himg
      rw [hpr1] at hwmv
      rw [hwmv] at himv
      cases himv
  · intro w hw hex
    constructor
    · intro hmem
      have := ((videosPartition_mem fs0 mediaDir (neededSets qs).2 w).mp hmem).2
      rw [hex] at this
      cases this
    · intro pr hpr hpr1
      rw [hreads2, hreads1] at hpr
      rcases List.mem_append.mp hpr with hpr | hpr
      · have himg := (hnew1 pr hpr).1
        have himv := (neededSets_ext qs).1 pr.1 himg
        have hwmv := (neededSets_ext qs).2 w hw
        rw [hpr1] at himv
        rw [hwmv] at himv
        cases himv
      · have hvtc := hnew2 pr hpr
        rw [hpr1] at hvtc
        have := ((videosPartition_mem fs0 mediaDir (neededSets qs).2 w).mp hvtc).2
        rw [hex] at this
        cases this

/-- A question whose image is already in the media directory. -/
def qImgDone : Question :=
  { id := PyVal.i 1, text := "t", type := QType.TN, answers := Option.none,
    correct := "T", media := some "a.jpg", mediaOrig := some "a.jpg",
    struct := "PODSTAWOWY" }

/-- A question whose video already has a converted output. -/
def qVidDone : Question :=
  { id := PyVal.i 2, text := "t", type := QType.TN, answers := Option.none,
    correct := "T", media := some "b.webm", mediaOrig := some "b.wmv",
    struct := "PODSTAWOWY" }

/-- A media directory that already holds both targets. -/
def fsDone : FS :=
  fun p => if p = "media/a.jpg" ∨ p = "media/b.webm" then some (Entry.file []) else Option.none

/-- A healthy archive with no members needed. -/
def arHealthy : Archive := ⟨true, ["x.jpg"], fun _ => some []⟩

/-- C6, witness: the idempotence theorem applied to a concrete run whose
outputs all already exist. -/
theorem extraction_idempotent_witness :
    ∃ st', extractPasses arHealthy (buildNameMap arHealthy.members) "media" "tmp"
        (neededSets [qImgDone, qVidDone]).1
        (videosPartition fsDone "media" (neededSets [qImgDone, qVidDone]).2).1
        (initSt fsDone) = Except.ok st' ∧
      st'.imagesSkip
          = ((neededSets [qImgDone, qVidDone]).1).countP
              (fun img => (fsDone (pyJoin "media" img)).isSome) ∧
      (∀ img ∈ (neededSets [qImgDone, qVidDone]).1,
          (fsDone (pyJoin "media" img)).isSome = true →
          ∀ pr ∈ st'.reads, pr.1 ≠ img) ∧
      (videosPartition fsDone "media" (neededSets [qImgDone, qVidDone]).2).2
          = ((neededSets [qImgDone, qVidDone]).2).countP
              (fun w => (fsDone (pyJoin "media" (webmOf w))).isSome) ∧
      (∀ w ∈ (neededSets [qImgDone, qVidDone]).2,
          (fsDone (pyJoin "media" (webmOf w))).isSome = true →
          w ∉ (videosPartition fsDone "media" (neededSets [qImgDone, qVidDone]).2).1 ∧
          ∀ pr ∈ st'.reads, pr.1 ≠ w) :=
  extraction_idempotent arHealthy "media" "tmp" [qImgDone, qVidDone] fsDone (fun _ => rfl)

/-- C2, counterexample: with 3 slated videos, Docker available, the image
built and the container producing outputs for 2 of the 3, a batch run
returning a non-zero exit status — still a returning batch operation — is
reported only as a batch-level error: no per-asset verification is
performed and no per-asset disposition is reported, refuting the claim as
stated. -/
theorem conversion_nonzero_exit_counterexample :
    (conversionPhase
        { dockerAvailable := true, buildOk := true, runReturncode := 1,
          runEffect := fun fs => fsWrite (fsWrite fs "media/v1.webm" []) "media/v2.webm" [] }
        "media" ["v1.wmv", "v2.wmv", "v3.wmv"] 0 3 (fun _ => Option.none)).1
      = Phase5.dockerError 1 ∧
    (conversionPhase
        { dockerAvailable := true, buildOk := true, runReturncode := 1,
          runEffect := fun fs => fsWrite (fsWrite fs "media/v1.webm" []) "media/v2.webm" [] }
        "media" ["v1.wmv", "v2.wmv", "v3.wmv"] 0 3 (fun _ => Option.none)).1
      ≠ Phase5.converted 2 3 0 := by
  refine ⟨rfl, ?_⟩
  decide

/-- C2 (amended): with videos slated, Docker available and the converter
image built, the orchestrator verifies per asset only when the batch run
returns exit status 0: it then reports `converted` with the count of
slated assets whose expected converted output exists in the post-run
filesystem, the remainder (extracted minus verified) being exactly the
assets whose expected output is missing; on a non-zero exit status it
reports only a batch-level error with the exit code and performs no
per-asset verification; in either case the whole
extraction-and-conversion run returns normally (no exception) for any
healthy archive. -/
theorem conversion_verifies_per_asset
    (env : ConvEnv) (mediaDir : String) (vtc : List String) (vskip extracted : Nat) (fs : FS)
    (ar : Archive) (scratchDir : String) (qs : List Question) (fs0 : FS)
    (hne : vtc ≠ []) (hd : env.dockerAvailable = true) (hb : env.buildOk = true)
    (hext : extracted = vtc.length)
    (hok : ar.ok = true) (har : ∀ z, (ar.read z).isSome = true) :
    (env.runReturncode = 0 →
      conversionPhase env mediaDir vtc vskip extracted fs
        = (Phase5.converted
            (vtc.countP (fun w => ((env.runEffect fs) (pyJoin mediaDir (webmOf w))).isSome))
            extracted vskip, env.runEffect fs) ∧
      extracted
          - vtc.countP (fun w => ((env.runEffect fs) (pyJoin mediaDir (webmOf w))).isSome)
        = vtc.countP (fun w => !((env.runEffect fs) (pyJoin mediaDir (webmOf w))).isSome)) ∧
    (env.runReturncode ≠ 0 →
      conversionPhase env mediaDir vtc vskip extracted fs
        = (Phase5.dockerError env.runReturncode, env.runEffect fs)) ∧
    (∃ r, (extract_and_convert ar env mediaDir scratchDir qs fs0).1 = Except.ok r) := by
  have hvempty : vtc.isEmpty = false := by
    cases vtc with
    | nil => exact absurd rfl hne
    | cons a l => rfl
  refine ⟨fun hr => ⟨?_, ?_⟩, fun hr => ?_, ?_⟩
  · unfold conversionPhase
    rw [hvempty, hd, hb, hr]
    simp
  · have hlen := List.length_eq_countP_add_countP
      (fun w => ((env.runEffect fs) (pyJoin mediaDir (webmOf w))).isSome) vtc
    have hcong : vtc.countP
          (fun w => !((env.runEffect fs) (pyJoin mediaDir (webmOf w))).isSome)
        = vtc.countP (fun w =>
            decide ¬(((env.runEffect fs) (pyJoin mediaDir (webmOf w))).isSome = true)) :=
      List.countP_congr (fun x _ => by simp)
    rw [hext, hcong]
    omega
  · unfold conversionPhase
    rw [hvempty, hd, hb]
    simp [hr]
  · obtain ⟨st1, hrun1, _, _, _, _⟩ :=
      imageFold_spec ar (buildNameMap ar.members) mediaDir har (neededSets qs).1
        (initSt (fsMkdir scratchDir (fsMkdir mediaDir fs0))) (neededSets_nodup qs).1
    obtain ⟨st2, hrun2, _, _⟩ :=
      wmvFold_spec ar (buildNameMap ar.members) scratchDir har
        (videosPartition (fsMkdir mediaDir fs0) mediaDir (neededSets qs).2).1 st1
    have hbody : ∃ rp, extractBody ar env mediaDir scratchDir (neededSets qs).1
        (videosPartition (fsMkdir mediaDir fs0) mediaDir (neededSets qs).2).1
        (videosPartition (fsMkdir mediaDir fs0) mediaDir (neededSets qs).2).2
        (fsMkdir scratchDir (fsMkdir mediaDir fs0)) = Except.ok rp := by
      unfold extractBody
      rw [if_neg (by rw [hok]; simp)]
      unfold extractPasses
      simp only [hrun1, hrun2]
      exact ⟨_, rfl⟩
    obtain ⟨rp, hbody⟩ := hbody
    cases rp with
    | mk rep fs2 =>
      unfold extract_and_convert
      rw [hbody]
      exact ⟨rep, rfl⟩

/-- The conversion environment of the witness scenario: the container
produces outputs for the first two videos only. -/
def envConv : ConvEnv :=
  { dockerAvailable := true, buildOk := true, runReturncode := 0,
    runEffect := fun fs => fsWrite (fsWrite fs "media/v1.webm" []) "media/v2.webm" [] }

/-- C2, witness: 3 slated raw videos, outputs produced for only 2 — the run
reports 2 converted out of 3 extracted (hence 1 failed) and raises no
exception. -/
theorem conversion_verifies_per_asset_witness :
    (conversionPhase envConv "media" ["v1.wmv", "v2.wmv", "v3.wmv"] 0 3
        (fun _ => Option.none)).1 = Phase5.converted 2 3 0 ∧ (3 : Nat) - 2 = 1 := by
  have h := conversion_verifies_per_asset envConv "media" ["v1.wmv", "v2.wmv", "v3.wmv"] 0 3
    (fun _ => Option.none) ⟨true, [], fun _ => some []⟩ "tmp" [] (fun _ => Option.none)
    (by decide) rfl rfl rfl rfl (fun _ => rfl)
  constructor
  · rw [(h.1 rfl).1]
    decide
  · rfl
